import Mathlib

/-!
# Verification of the agent-teams-monitor reconciliation core

A shallow embedding of the reconciliation / time-travel subsystem of the
`agent-teams-monitor` VS Code extension (the TypeScript source under `src/`),
together with proofs about the embedded definitions.

Conventions of the embedding:
* TypeScript `Map<string, V>` (insertion-ordered, `set` replaces in place)
  is modelled as an association list `List (String × V)` with `mapSet`
  (replace the first matching key in place, else append) and `mapLookup`
  (first match).  All maps in the source are built from the empty map via
  `set`, so keys are unique and "replace first" coincides with `Map.set`.
* `JSON.parse` is modelled by an executable recursive-descent parser
  `jsonParse` into an inductive `Json` value; a thrown parse exception is
  modelled as `none`.  JSON numbers are kept as their raw lexeme (no
  floating point is needed by any function under verification).
* Timestamps are ISO strings compared lexicographically, exactly as the
  source compares them with JavaScript string `<` / `localeCompare`.
-/

namespace ATM

/-! ## Association-list model of the JavaScript `Map` -/

/-- `Map.set k v`: replace the first binding of `k` in place, else append.
All maps in the source start empty, so keys are unique and this is exactly
the semantics of the insertion-ordered JavaScript `Map`. -/
def mapSet {α : Type} : List (String × α) → String → α → List (String × α)
  | [], k, v => [(k, v)]
  | (k', v') :: rest, k, v =>
    if k' = k then (k, v) :: rest else (k', v') :: mapSet rest k v

/-- `Map.get k`: first binding of `k`, if any. -/
def mapLookup {α : Type} : List (String × α) → String → Option α
  | [], _ => none
  | (k', v') :: rest, k => if k' = k then some v' else mapLookup rest k

/-! ## Data model (from `src/types.ts`) -/

/-- One member of a team descriptor (`TeamMember` in `src/types.ts`).
Only the fields the verified functions read are carried; the optional
teammate-only fields are `Option`s. -/
structure TeamMember where
  agentId : String
  name : String
  agentType : String
  model : String
  cwd : String
  color : Option String
  planModeRequired : Option Bool
  backendType : Option String
deriving DecidableEq, Repr

/-- A session descriptor (`TeamConfig` in `src/types.ts`). -/
structure TeamConfig where
  name : String
  description : String
  leadAgentId : String
  leadSessionId : String
  createdAt : Nat
  members : List TeamMember
deriving DecidableEq, Repr

/-- `isTeamLead` from `src/types.ts`: a member is the lead iff its
`agentType` is the literal `team-lead`. -/
def isTeamLead (m : TeamMember) : Bool :=
  m.agentType = "team-lead"

/-- Work-item status (`AgentTask['status']`). -/
inductive TaskStatus where
  | pending
  | in_progress
  | completed
deriving DecidableEq, Repr

/-- A work item (`AgentTask` in `src/types.ts`). -/
structure AgentTask where
  id : String
  subject : String
  description : String
  status : TaskStatus
  blocks : List String
  blockedBy : List String
deriving DecidableEq, Repr

/-- One inbox message (`InboxEntry` in `src/types.ts`).  `from` is a Lean
keyword, hence the guillemets. -/
structure InboxEntry where
  «from» : String
  text : String
  summary : Option String
  timestamp : String
  color : Option String
  read : Bool
deriving DecidableEq, Repr

/-- A team's message store: inbox-owner name → entries, in insertion order
(the inner map of `TeamStateManager.messages`). -/
abbrev TeamMessages := List (String × List InboxEntry)

/-! ## JSON values and an executable model of `JSON.parse`

`parseTypedMessage` in `src/types.ts` calls the platform's `JSON.parse`
inside a `try`.  We model JSON values as an inductive type and the parser
as a fuel-bounded recursive-descent parser; a thrown `SyntaxError` is
modelled as `none`.  Numbers keep their raw lexeme — no verified function
ever reads a numeric value out of a parsed message. -/

inductive Json where
  | null
  | bool (b : Bool)
  | num (raw : String)
  | str (s : String)
  | arr (elems : List Json)
  | obj (fields : List (String × Json))
deriving Repr

/-- JSON insignificant whitespace. -/
def isJsonWs (c : Char) : Bool :=
  c = ' ' || c = '\t' || c = '\n' || c = '\r'

def skipWs (cs : List Char) : List Char :=
  cs.dropWhile isJsonWs

def parseHexDigit (c : Char) : Option Nat :=
  if '0' ≤ c ∧ c ≤ '9' then some (c.toNat - '0'.toNat)
  else if 'a' ≤ c ∧ c ≤ 'f' then some (c.toNat - 'a'.toNat + 10)
  else if 'A' ≤ c ∧ c ≤ 'F' then some (c.toNat - 'A'.toNat + 10)
  else none

/-- Body of a JSON string literal, positioned just after the opening
quote.  Returns the decoded characters and the input after the closing
quote.  Raw control characters are rejected, escapes are decoded
(`Char.ofNat` stands in for UTF-16 code-unit semantics of `\uXXXX`). -/
def parseStringBody : Nat → List Char → Option (List Char × List Char)
  | 0, _ => none
  | _, [] => none
  | fuel + 1, c :: rest =>
    if c = '"' then some ([], rest)
    else if c = '\\' then
      match rest with
      | [] => none
      | e :: rest2 =>
        let esc : Option (Char × List Char) :=
          if e = '"' then some ('"', rest2)
          else if e = '\\' then some ('\\', rest2)
          else if e = '/' then some ('/', rest2)
          else if e = 'b' then some ('\x08', rest2)
          else if e = 'f' then some ('\x0C', rest2)
          else if e = 'n' then some ('\n', rest2)
          else if e = 'r' then some ('\r', rest2)
          else if e = 't' then some ('\t', rest2)
          else if e = 'u' then
            match rest2 with
            | h1 :: h2 :: h3 :: h4 :: rest3 =>
              match parseHexDigit h1, parseHexDigit h2, parseHexDigit h3, parseHexDigit h4 with
              | some a, some b, some c2, some d =>
                some (Char.ofNat (((a * 16 + b) * 16 + c2) * 16 + d), rest3)
              | _, _, _, _ => none
            | _ => none
          else none
        match esc with
        | none => none
        | some (ch, rest') =>
          (parseStringBody fuel rest').map (fun p => (ch :: p.1, p.2))
    else if c.toNat < 0x20 then none
    else (parseStringBody fuel rest).map (fun p => (c :: p.1, p.2))

/-- One or more decimal digits. -/
def parseDigits1 (cs : List Char) : Option (List Char × List Char) :=
  let p := cs.span Char.isDigit
  if p.1.isEmpty then none else some p

/-- Optional fraction part `.digits⁺`; returns the consumed lexeme. -/
def parseFracPart (cs : List Char) : Option (List Char × List Char) :=
  match cs with
  | '.' :: rest =>
    (parseDigits1 rest).map (fun p => ('.' :: p.1, p.2))
  | _ => some ([], cs)

/-- Optional exponent part `[eE][+-]?digits⁺`; returns the consumed lexeme. -/
def parseExpPart (cs : List Char) : Option (List Char × List Char) :=
  match cs with
  | c :: rest =>
    if c = 'e' ∨ c = 'E' then
      match rest with
      | s :: rest2 =>
        if s = '+' ∨ s = '-' then
          (parseDigits1 rest2).map (fun p => (c :: s :: p.1, p.2))
        else (parseDigits1 rest).map (fun p => (c :: p.1, p.2))
      | [] => none
    else some ([], cs)
  | [] => some ([], cs)

/-- A JSON number: `-? (0 | [1-9][0-9]*) frac? exp?`, kept as its lexeme. -/
def parseJsonNumber (cs : List Char) : Option (Json × List Char) :=
  let sp : List Char × List Char :=
    match cs with
    | '-' :: r => (['-'], r)
    | _ => ([], cs)
  match sp.2 with
  | [] => none
  | c :: r =>
    if c = '0' then
      match parseFracPart r with
      | none => none
      | some (fr, r2) =>
        match parseExpPart r2 with
        | none => none
        | some (ex, r3) => some (.num (String.mk (sp.1 ++ [c] ++ fr ++ ex)), r3)
    else if c.isDigit then
      let ds := r.span Char.isDigit
      match parseFracPart ds.2 with
      | none => none
      | some (fr, r2) =>
        match parseExpPart r2 with
        | none => none
        | some (ex, r3) => some (.num (String.mk (sp.1 ++ [c] ++ ds.1 ++ fr ++ ex)), r3)
    else none

/-- Consume an exact literal such as `rue` / `alse` / `ull`. -/
def dropLit : List Char → List Char → Option (List Char)
  | [], cs => some cs
  | l :: ls, c :: cs => if c = l then dropLit ls cs else none
  | _ :: _, [] => none

mutual

/-- Recursive-descent JSON value parser, fuel-bounded. -/
def parseValue : Nat → List Char → Option (Json × List Char)
  | 0, _ => none
  | fuel + 1, cs =>
    match skipWs cs with
    | [] => none
    | c :: rest =>
      if c = '"' then
        (parseStringBody (rest.length + 1) rest).map (fun p => (.str (String.mk p.1), p.2))
      else if c = '{' then
        match parseObjItems fuel rest with
        | some (fs, r) => some (.obj fs, r)
        | none => none
      else if c = '[' then
        match parseArrItems fuel rest with
        | some (vs, r) => some (.arr vs, r)
        | none => none
      else if c = 't' then (dropLit ['r', 'u', 'e'] rest).map (fun r => (.bool true, r))
      else if c = 'f' then (dropLit ['a', 'l', 's', 'e'] rest).map (fun r => (.bool false, r))
      else if c = 'n' then (dropLit ['u', 'l', 'l'] rest).map (fun r => (.null, r))
      else parseJsonNumber (c :: rest)

/-- Array items, positioned just after `[`. -/
def parseArrItems : Nat → List Char → Option (List Json × List Char)
  | 0, _ => none
  | fuel + 1, cs =>
    match skipWs cs with
    | ']' :: rest => some ([], rest)
    | _ => parseArrRest fuel cs

/-- One array element followed by `, …]` or `]`. -/
def parseArrRest : Nat → List Char → Option (List Json × List Char)
  | 0, _ => none
  | fuel + 1, cs =>
    match parseValue fuel cs with
    | none => none
    | some (v, r) =>
      match skipWs r with
      | ',' :: r2 =>
        match parseArrRest fuel r2 with
        | some (vs, r3) => some (v :: vs, r3)
        | none => none
      | ']' :: r2 => some ([v], r2)
      | _ => none

/-- Object fields, positioned just after `{`. -/
def parseObjItems : Nat → List Char → Option (List (String × Json) × List Char)
  | 0, _ => none
  | fuel + 1, cs =>
    match skipWs cs with
    | '}' :: rest => some ([], rest)
    | _ => parseObjRest fuel cs

/-- One `"key": value` field followed by `, …}` or `}`. -/
def parseObjRest : Nat → List Char → Option (List (String × Json) × List Char)
  | 0, _ => none
  | fuel + 1, cs =>
    match skipWs cs with
    | '"' :: r =>
      match parseStringBody (r.length + 1) r with
      | none => none
      | some (key, r1) =>
        match skipWs r1 with
        | ':' :: r2 =>
          match parseValue fuel r2 with
          | none => none
          | some (v, r3) =>
            match skipWs r3 with
            | ',' :: r4 =>
              match parseObjRest fuel r4 with
              | some (fs, r5) => some ((String.mk key, v) :: fs, r5)
              | none => none
            | '}' :: r4 => some ([(String.mk key, v)], r4)
            | _ => none
        | _ => none
    | _ => none

end

/-- Model of `JSON.parse`: parse one value and require only whitespace
after it; `none` models a thrown `SyntaxError`.  The fuel bounds only the
recursion depth and is generous enough for any input of this length. -/
def jsonParse (s : String) : Option Json :=
  match parseValue (4 * s.length + 4) s.data with
  | none => none
  | some (v, rest) => if (skipWs rest).isEmpty then some v else none

/-- JavaScript property read `j.k` on a parse result: on objects the last
duplicate key wins (as in `JSON.parse`); every other value has no such
property (JSON arrays only get index and `length` properties). -/
def jsGetProp (j : Json) (k : String) : Option Json :=
  match j with
  | .obj fields => ((fields.filter (fun p => p.1 = k)).getLast?).map (fun p => p.2)
  | _ => none

/-- `typeof j === 'object'` for a `JSON.parse` result: true exactly on
`null`, arrays and objects. -/
def jsTypeofIsObject : Json → Bool
  | .null => true
  | .arr _ => true
  | .obj _ => true
  | _ => false

/-- Is a JSON number lexeme numerically zero (`0`, `-0`, `0.00`, `0e5`…)?
Used only for JavaScript truthiness. -/
def numLexemeIsZero (raw : String) : Bool :=
  (raw.data.takeWhile (fun c => c ≠ 'e' ∧ c ≠ 'E')).all (fun c => !c.isDigit || c = '0')

/-- JavaScript truthiness of a `JSON.parse` result (no `undefined`/`NaN`
can come out of `JSON.parse`-ing a valid document except numeric lexemes,
which are never `NaN`). -/
def jsTruthy : Json → Bool
  | .null => false
  | .bool b => b
  | .num raw => !numLexemeIsZero raw
  | .str s => !s.isEmpty
  | .arr _ => true
  | .obj _ => true

/-- `typeof v === 'string'` where `v` is an optional property read
(`none` models `undefined`). -/
def jsIsString : Option Json → Bool
  | some (.str _) => true
  | _ => false

/-- `parseTypedMessage` from `src/types.ts` (lines 320–330): JSON-parse the
`text` field inside a `try`; return the parse result exactly when it is
truthy, `typeof … === 'object'`, and its `type` property is a string;
otherwise (including a thrown parse error) return `null`. -/
def parseTypedMessage (text : String) : Option Json :=
  match jsonParse text with
  | none => none
  | some parsed =>
    if jsTruthy parsed && jsTypeofIsObject parsed && jsIsString (jsGetProp parsed "type") then
      some parsed
    else none

/-- The check `typed && typed.type === '…'` that every call site of
`parseTypedMessage` in `src/state/teamState.ts` performs. -/
def hasTypedType (text : String) (ty : String) : Bool :=
  match parseTypedMessage text with
  | some j =>
    match jsGetProp j "type" with
    | some (.str s) => s = ty
    | _ => false
  | none => false

/-! ## State Store (`src/state/teamState.ts`) -/

/-- `new Map(existing.members.map(m => [m.name, m]))` in
`TeamStateManager.updateTeam` (line 30). -/
def memberMap (ms : List TeamMember) : List (String × TeamMember) :=
  ms.foldl (fun acc m => mapSet acc m.name m) []

/-- The descriptor-merge of `updateTeam` (lines 29–34): union of prior and
new members keyed by name, new attributes overwriting old, producing the
map's value list. -/
def mergeMembers (old new : List TeamMember) : List TeamMember :=
  (new.foldl (fun acc m => mapSet acc m.name m) (memberMap old)).map (fun p => p.2)

/-- `TeamStateManager.updateTeam` (lines 26–38), restricted to its effect
on the `teams` map (the change notification carries no data). -/
def updateTeam (teams : List (String × TeamConfig)) (name : String) (config : TeamConfig) :
    List (String × TeamConfig) :=
  match mapLookup teams name with
  | some existing =>
    mapSet teams name { config with members := mergeMembers existing.members config.members }
  | none => mapSet teams name config

/-- A sequence of descriptor upserts `(sessionName, descriptor)` applied in
order through `updateTeam`. -/
def applyUpserts (ops : List (String × TeamConfig)) (teams : List (String × TeamConfig)) :
    List (String × TeamConfig) :=
  ops.foldl (fun t op => updateTeam t op.1 op.2) teams

/-- `TeamStateManager.getShutdownAgents` (lines 186–197): the senders of
shutdown-approved typed messages in the inbox keyed `team-lead` (the
leader's inbox — the external protocol always names the leader
`team-lead`).  The source accumulates a `Set`; we keep the list, whose
membership is what the one call site (`has`) observes. -/
def getShutdownAgents (msgs : TeamMessages) : List String :=
  match mapLookup msgs "team-lead" with
  | none => []
  | some leadMsgs =>
    (leadMsgs.filter (fun e => hasTypedType e.text "shutdown_approved")).map (fun e => e.«from»)

/-- `TeamStateManager.getEffectiveTaskStatus` (lines 200–207). -/
def getEffectiveTaskStatus (msgs : TeamMessages) (task : AgentTask) : TaskStatus :=
  if task.status = .completed then .completed
  else if task.status = .in_progress then
    if (getShutdownAgents msgs).contains task.subject then .completed else task.status
  else task.status

/-- Derived participant lifecycle. -/
inductive Lifecycle where
  | active
  | idle
  | shutting_down
  | shutdown
deriving DecidableEq, Repr

/-- The rule-3 scan of `getAgentLifecycleState` (lines 230–243): fold over
all inboxes in map order and all entries in order, keeping the entry from
the agent with the strictly greatest timestamp seen so far (so the
first-seen entry wins timestamp ties), remembering whether it is an
idle-notice. -/
def latestFromScan (msgs : TeamMessages) (agentName : String) : Option (String × Bool) :=
  msgs.foldl (fun latest p =>
    p.2.foldl (fun latest e =>
      if e.«from» = agentName then
        match latest with
        | none => some (e.timestamp, hasTypedType e.text "idle_notification")
        | some l =>
          if l.1 < e.timestamp then some (e.timestamp, hasTypedType e.text "idle_notification")
          else some l
      else latest) latest) none

/-- `TeamStateManager.getAgentLifecycleState` (lines 210–247).  A team with
no message map at all behaves like one with an empty map, so the team's
messages are passed directly. -/
def getAgentLifecycleState (msgs : TeamMessages) (agentName : String) : Lifecycle :=
  let leadMsgs := (mapLookup msgs "team-lead").getD []
  if leadMsgs.any (fun e => hasTypedType e.text "shutdown_approved" && e.«from» == agentName) then
    .shutdown
  else
    let agentMsgs := (mapLookup msgs agentName).getD []
    if agentMsgs.any (fun e => hasTypedType e.text "shutdown_request") then .shutting_down
    else
      match latestFromScan msgs agentName with
      | some (_, true) => .idle
      | _ => .active

/-- `TeamStateManager.getAgentLifecycleStates` (lines 250–262), taking the
team's descriptor directly (an unknown team yields the empty map). -/
def getAgentLifecycleStates (team : TeamConfig) (msgs : TeamMessages) :
    List (String × Lifecycle) :=
  team.members.foldl (fun result member =>
    if isTeamLead member then mapSet result member.name .active
    else mapSet result member.name (getAgentLifecycleState msgs member.name)) []

/-! ## Session-level status (`src/utils.ts`) -/

inductive TeamStatus where
  | active
  | winding_down
  | completed
deriving DecidableEq, Repr

/-- The filter inside `deriveTeamStatus` (lines 22–24): lifecycle values of
entries whose key is not the name of a lead member.  The source types the
map `Map<string, string>`; all call sites pass lifecycle values, modelled
by the `Lifecycle` inductive. -/
def nonLeadLifecycles (lifecycleStates : List (String × Lifecycle)) (members : List TeamMember) :
    List Lifecycle :=
  (lifecycleStates.filter (fun p =>
    !(members.any (fun m => isTeamLead m && m.name == p.1)))).map (fun p => p.2)

/-- `deriveTeamStatus` from `src/utils.ts` (lines 18–32). -/
def deriveTeamStatus (lifecycleStates : List (String × Lifecycle)) (members : List TeamMember) :
    TeamStatus :=
  let nl := nonLeadLifecycles lifecycleStates members
  if nl.length > 0 && nl.all (fun s => s == Lifecycle.shutdown) then .completed
  else if nl.any (fun s => s == Lifecycle.shutting_down || s == Lifecycle.shutdown) then
    .winding_down
  else .active

/-! ## Archiver (`SessionArchiver.buildSessionRecord`) -/

/-- The message fingerprint of the broadcast detector (line 200):
`` `${entry.text}|${entry.timestamp}` ``. -/
def msgFingerprint (e : InboxEntry) : String :=
  e.text ++ "|" ++ e.timestamp

/-- `msgFingerprints.set(key, (msgFingerprints.get(key) ?? 0) + 1)`. -/
def bumpCount (l : List (String × Nat)) (k : String) : List (String × Nat) :=
  mapSet l k ((mapLookup l k).getD 0 + 1)

/-- The broadcast counter of `buildSessionRecord` (lines 196–206): count
fingerprints occurring more than once across all inboxes. -/
def broadcastCount (messages : TeamMessages) : Nat :=
  let fps := messages.foldl (fun acc p =>
    p.2.foldl (fun acc e => bumpCount acc (msgFingerprint e)) acc) []
  (fps.filter (fun p => p.2 > 1)).length

/-- `completedTasks` of `buildSessionRecord` (line 185): stored-status
completed count. -/
def completedTasksCount (tasks : List AgentTask) : Nat :=
  (tasks.filter (fun t => t.status == TaskStatus.completed)).length

/-- The outcome classification of `buildSessionRecord` (lines 219–228). -/
def sessionOutcome (tasks : List AgentTask) : String :=
  if tasks.length = 0 then "no-tasks"
  else if completedTasksCount tasks = tasks.length then "completed"
  else if completedTasksCount tasks > 0 then "partial"
  else "abandoned"

/-! ## Recorder (`src/replay/autoRecorder.ts`) -/

/-- Per-team data of a recording frame (`Frame.teams[name]`). -/
structure FrameTeamData where
  config : TeamConfig
  inboxes : List (String × List InboxEntry)
deriving DecidableEq, Repr

/-- A recording frame (`Frame` in `src/replay/types.ts`).  `elapsed_ms` is
a JavaScript number, modelled as a rational. -/
structure Frame where
  timestamp : String
  elapsed_ms : Rat
  teams : List (String × FrameTeamData)
  tasks : List (String × List (String × AgentTask))
deriving DecidableEq, Repr

/-- The content `hashFrame` hashes (lines 164–167):
`JSON.stringify({teams, tasks})` — the frame's payload without `timestamp`
and `elapsed_ms`.  MD5 of a canonical serialization is modelled by the
payload itself, so hash equality is payload equality. -/
def hashFrame (f : Frame) :
    List (String × FrameTeamData) × List (String × List (String × AgentTask)) :=
  (f.teams, f.tasks)

/-- The recorder state of one team (`TeamRecording`), with the
sequentially-numbered frame files modelled as the list of stored frames.
`lastHash : none` models the initial `''`, which no MD5 digest equals. -/
structure TeamRecording where
  frameCount : Nat
  lastHash : Option (List (String × FrameTeamData) × List (String × List (String × AgentTask)))
  storedFrames : List Frame
deriving DecidableEq, Repr

/-- State set up by `startRecording` (lines 40–47). -/
def freshRecording : TeamRecording :=
  { frameCount := 0, lastHash := none, storedFrames := [] }

/-- `captureFrameImmediate` (lines 67–87): discard the built frame when its
hash equals the previous one, else store it.  (The elapsed-ms stamping of
accepted frames does not enter the hash.) -/
def captureFrameImmediate (r : TeamRecording) (frame : Frame) : TeamRecording :=
  if some (hashFrame frame) = r.lastHash then r
  else
    { frameCount := r.frameCount + 1
      lastHash := some (hashFrame frame)
      storedFrames := r.storedFrames ++ [frame] }

/-- A whole sequence of capture attempts against a fresh recording. -/
def captureSeq (frames : List Frame) : TeamRecording :=
  frames.foldl captureFrameImmediate freshRecording

/-! ## Replay Engine (`src/replay/replayManager.ts`) -/

/-- Replay status of a session (§4.4 of the spec). -/
inductive ReplayStatus where
  | playing
  | completed
  | stopped
deriving DecidableEq, Repr

/-- Modelled from the spec: the per-session replay state descriptor of
§4.4.  The `TeamReplayState` type and the `TeamStateManager` accessors
`getTeamReplayState` / `setTeamReplayState` are referenced by
`src/replay/replayManager.ts` but defined outside the files under `src/`;
per the spec it "tracks status (`playing`/`completed`/`stopped`),
current/total frame counts, and percentage", keyed by session name. -/
structure TeamReplayState where
  recordingDir : String
  status : ReplayStatus
  speed : Rat
  currentFrame : Nat
  totalFrames : Nat
  progressPct : Int
deriving DecidableEq, Repr

/-- The State Store's mutable content touched by the Replay Engine. -/
structure StoreState where
  teams : List (String × TeamConfig)
  tasks : List (String × List AgentTask)
  messages : List (String × TeamMessages)
  replayStates : List (String × TeamReplayState)
deriving Repr

/-- `TeamStateManager.updateTeam` as a store mutation. -/
def updateTeamSt (st : StoreState) (name : String) (config : TeamConfig) : StoreState :=
  { st with teams := updateTeam st.teams name config }

/-- `updateTask` (lines 72–82): replace the first task with the same id,
else push. -/
def replaceFirstTask : List AgentTask → AgentTask → List AgentTask
  | [], task => [task]
  | t :: rest, task =>
    if t.id = task.id then task :: rest else t :: replaceFirstTask rest task

def updateTaskSt (st : StoreState) (teamName : String) (task : AgentTask) : StoreState :=
  { st with tasks :=
      mapSet st.tasks teamName (replaceFirstTask ((mapLookup st.tasks teamName).getD []) task) }

/-- `setMessages` (lines 94–100): replace one inbox wholesale. -/
def setMessagesSt (st : StoreState) (teamName agentName : String) (entries : List InboxEntry) :
    StoreState :=
  let inner := mapSet ((mapLookup st.messages teamName).getD []) agentName entries
  { st with messages := mapSet st.messages teamName inner }

/-- Modelled from the spec (§4.4): read/replace the per-session replay
state (the `getTeamReplayState` / `setTeamReplayState` accessors). -/
def getTeamReplayStateSt (st : StoreState) (name : String) : Option TeamReplayState :=
  mapLookup st.replayStates name

def setTeamReplayStateSt (st : StoreState) (name : String) (rs : TeamReplayState) : StoreState :=
  { st with replayStates := mapSet st.replayStates name rs }

/-- `ReplayManager.applyFrame` (lines 253–265): descriptor upsert keyed by
the config's own name, per-inbox message replacement keyed by the frame's
team key, then per-item task upserts. -/
def applyFrame (st : StoreState) (frame : Frame) : StoreState :=
  let st1 := frame.teams.foldl (fun acc p =>
    let acc' := updateTeamSt acc p.2.config.name p.2.config
    p.2.inboxes.foldl (fun a q => setMessagesSt a p.1 q.1 q.2) acc') st
  frame.tasks.foldl (fun acc p =>
    p.2.foldl (fun a q => updateTaskSt a p.1 q.2) acc) st1

/-- A discovered recording as `startReplay` sees it: its directory, the
manifest's team-name list when a manifest was readable, and its loaded
frames. -/
structure RecordingInfo where
  dir : String
  manifestTeamNames : Option (List String)
  frames : List Frame
deriving Repr

/-- Team names of the first frame (`Object.keys(loadedFrames[0].teams)`). -/
def firstFrameTeamNames (frames : List Frame) : List String :=
  match frames with
  | [] => []
  | f :: _ => f.teams.map (fun p => p.1)

/-- `extractTeamNames` (lines 279–289): the manifest's team names when
present and non-empty, else inferred from the first frame. -/
def extractTeamNames (r : RecordingInfo) : List String :=
  match r.manifestTeamNames with
  | some names => if names.length > 0 then names else firstFrameTeamNames r.frames
  | none => firstFrameTeamNames r.frames

/-- The State Store effect of one uncancelled `playRecording` run
(lines 159–248): initial `playing` states, then per frame the application
and the progress write, then the guarded final `completed` states.  Timing
(`cancellableSleep`) has no store effect and is modelled separately by
`playTrace`. -/
def playRecordingSt (st : StoreState) (r : RecordingInfo) (speed : Rat) : StoreState :=
  if r.frames.length = 0 then st
  else
    let n := r.frames.length
    let teamNames := extractTeamNames r
    let st0 := teamNames.foldl (fun acc name =>
      setTeamReplayStateSt acc name
        { recordingDir := r.dir, status := .playing, speed := speed
          currentFrame := 0, totalFrames := n, progressPct := 0 }) st
    let stLoop := r.frames.enum.foldl (fun acc p =>
      let acc1 := applyFrame acc p.2
      let pct := round ((((p.1 + 1 : Nat) : Rat) / (n : Rat)) * 100)
      teamNames.foldl (fun a name =>
        setTeamReplayStateSt a name
          { recordingDir := r.dir, status := .playing, speed := speed
            currentFrame := p.1 + 1, totalFrames := n, progressPct := pct }) acc1) st0
    teamNames.foldl (fun a name =>
      match getTeamReplayStateSt a name with
      | some cur =>
        if cur.recordingDir ≠ r.dir then a
        else
          setTeamReplayStateSt a name
            { recordingDir := r.dir, status := .completed, speed := speed
              currentFrame := cur.currentFrame, totalFrames := n, progressPct := 100 }
      | none =>
        setTeamReplayStateSt a name
          { recordingDir := r.dir, status := .completed, speed := speed
            currentFrame := n, totalFrames := n, progressPct := 100 }) stLoop

/-- Result of `startReplay`: either the synchronous refusal (the warning
message) with the untouched store, or the store after the replays ran. -/
inductive StartReplayResult where
  | rejected (st : StoreState)
  | started (st : StoreState)
deriving Repr

/-- The conflict gate of `startReplay` (lines 89–100) followed by the
launch of all selected recordings (lines 114–116; the concurrent launches
of one cooperative scheduler are modelled as a sequential fold). -/
def startReplay (st : StoreState) (selected : List RecordingInfo) (speed : Rat) :
    StartReplayResult :=
  if selected.any (fun r => (extractTeamNames r).any (fun name =>
      match getTeamReplayStateSt st name with
      | some existing => existing.status == ReplayStatus.playing
      | none => false)) then
    .rejected st
  else
    .started (selected.foldl (fun acc r => playRecordingSt acc r speed) st)

/-- One observable event of the playback loop of `playRecording`
(lines 193–225): a cancellable sleep, or the application of frame `i`. -/
inductive ReplayEvent where
  | wait (d : Rat)
  | apply (i : Nat)
deriving DecidableEq, Repr

/-- The event trace of the playback loop (lines 193–225) for an
uncancelled run: for each frame, the guarded inter-frame sleep
(`i > 0 && speed > 0` and a positive delta) and then the application;
`prevElapsed` is updated unconditionally each iteration. -/
def playTraceAux : List Frame → Rat → Rat → Nat → List ReplayEvent
  | [], _, _, _ => []
  | f :: rest, speed, prevElapsed, i =>
    (if 0 < i ∧ 0 < speed ∧ 0 < f.elapsed_ms - prevElapsed then
      [ReplayEvent.wait ((f.elapsed_ms - prevElapsed) / speed)]
    else []) ++ ReplayEvent.apply i :: playTraceAux rest speed f.elapsed_ms (i + 1)

/-- The full trace of `playRecording`'s loop, starting at frame 0 with
`prevElapsed = 0`. -/
def playTrace (frames : List Frame) (speed : Rat) : List ReplayEvent :=
  playTraceAux frames speed 0 0

/-! ## Trace observables (for stating the replay-timing claim) -/

def isApplyEvent : ReplayEvent → Bool
  | .apply _ => true
  | .wait _ => false

/-- The frame indices applied by a trace, in trace order. -/
def applyIndices (tr : List ReplayEvent) : List Nat :=
  tr.filterMap (fun e => match e with | .apply i => some i | .wait _ => none)

def waitDurations (tr : List ReplayEvent) : List Rat :=
  tr.filterMap (fun e => match e with | .wait d => some d | .apply _ => none)

def sumWaits (tr : List ReplayEvent) : Rat :=
  (waitDurations tr).sum

/-- The trace suffix strictly after the application of frame `j`. -/
def afterApplyIdx (j : Nat) (tr : List ReplayEvent) : List ReplayEvent :=
  (tr.dropWhile (fun e => !(e == ReplayEvent.apply j))).drop 1

/-- Total waited duration between the application of frame `i - 1` and the
application of frame `i`. -/
def waitBetween (tr : List ReplayEvent) (i : Nat) : Rat :=
  sumWaits ((afterApplyIdx (i - 1) tr).takeWhile (fun e => !isApplyEvent e))

def defaultFrame : Frame :=
  { timestamp := "", elapsed_ms := 0, teams := [], tasks := [] }

/-! ## Specification-side definitions

Predicates and functions phrased from the claims' own words, to be
compared against the embedded source functions. -/

/-- The leader's inbox (the entries keyed `team-lead`). -/
def leadInboxEntries (msgs : TeamMessages) : List InboxEntry :=
  (mapLookup msgs "team-lead").getD []

/-- Spec: "the leader's inbox contains a shutdown-approved typed message
whose sender is this participant". -/
def specShutdownApprovedFrom (msgs : TeamMessages) (agent : String) : Prop :=
  ∃ e ∈ leadInboxEntries msgs,
    hasTypedType e.text "shutdown_approved" = true ∧ e.«from» = agent

/-- Spec: "this participant's own inbox contains a shutdown-request typed
message". -/
def specShutdownRequested (msgs : TeamMessages) (agent : String) : Prop :=
  ∃ e ∈ (mapLookup msgs agent).getD [], hasTypedType e.text "shutdown_request" = true

/-- All messages sent by `agent`, across all inboxes of the session. -/
def entriesFrom (msgs : TeamMessages) (agent : String) : List InboxEntry :=
  ((msgs.map (fun p => p.2)).flatten).filter (fun e => e.«from» == agent)

/-- One step of the rule-3 scan on an already sender-filtered entry:
keep the strictly latest timestamp, remembering idle-notice-ness. -/
def stepLatest (latest : Option (String × Bool)) (e : InboxEntry) : Option (String × Bool) :=
  match latest with
  | none => some (e.timestamp, hasTypedType e.text "idle_notification")
  | some l =>
    if l.1 < e.timestamp then some (e.timestamp, hasTypedType e.text "idle_notification")
    else some l

/-- Spec: "across all inboxes in the session, the most recent message sent
by this participant (by timestamp) is an idle-notice typed message". -/
def specLatestIsIdle (msgs : TeamMessages) (agent : String) : Prop :=
  ∃ e ∈ entriesFrom msgs agent, hasTypedType e.text "idle_notification" = true ∧
    ∀ e' ∈ entriesFrom msgs agent, e'.timestamp ≤ e.timestamp

instance (msgs : TeamMessages) (agent : String) :
    Decidable (specShutdownApprovedFrom msgs agent) := by
  unfold specShutdownApprovedFrom
  infer_instance

instance (msgs : TeamMessages) (agent : String) :
    Decidable (specShutdownRequested msgs agent) := by
  unfold specShutdownRequested
  infer_instance

instance (msgs : TeamMessages) (agent : String) :
    Decidable (specLatestIsIdle msgs agent) := by
  unfold specLatestIsIdle
  infer_instance

/-- The lifecycle cascade exactly as the claim phrases it: `shutdown`,
else `shutting_down`, else `idle`, else `active`. -/
def specLifecycle (msgs : TeamMessages) (agent : String) : Lifecycle :=
  if specShutdownApprovedFrom msgs agent then .shutdown
  else if specShutdownRequested msgs agent then .shutting_down
  else if specLatestIsIdle msgs agent then .idle
  else .active

/-- The effective-status rule exactly as the claim phrases it. -/
def specEffectiveStatus (msgs : TeamMessages) (task : AgentTask) : TaskStatus :=
  if task.status = .completed then .completed
  else if task.status = .in_progress then
    if specShutdownApprovedFrom msgs task.subject then .completed else .in_progress
  else task.status

/-- The last member named `p` in one descriptor write's member list (with
`Map` overwrite semantics, the binding that write leaves for `p`). -/
def lastMemberNamed (p : String) (ms : List TeamMember) : Option TeamMember :=
  (ms.filter (fun m => m.name == p)).getLast?

/-- Right-biased-by-the-first-argument option override. -/
def overrideOpt {α : Type} : Option α → Option α → Option α
  | some v, _ => some v
  | none, old => old

/-- The attributes a whole sequence of descriptor writes leaves for the
participant named `p`: the last-written binding. -/
def lastWrite (p : String) (cfgs : List TeamConfig) : Option TeamMember :=
  cfgs.foldl (fun acc c => overrideOpt (lastMemberNamed p c.members) acc) none

/-- The descriptors a mixed upsert sequence writes to session `s`. -/
def configsFor (s : String) (ops : List (String × TeamConfig)) : List TeamConfig :=
  (ops.filter (fun op => op.1 == s)).map (fun op => op.2)

/-- Read session `s`'s binding for participant `p`: the last member named
`p` in the stored member list (after a merge the member list has unique
names, so this is the unique entry). -/
def memberRead (teams : List (String × TeamConfig)) (s p : String) : Option TeamMember :=
  match mapLookup teams s with
  | some cfg => lastMemberNamed p cfg.members
  | none => none

/-- All message fingerprints of a session, across all inboxes. -/
def allFingerprintsOf (messages : TeamMessages) : List String :=
  ((messages.map (fun p => p.2)).flatten).map msgFingerprint

/-- The amended broadcast count: the number of distinct `text|timestamp`
fingerprints occurring two or more times across all inboxes (regardless of
sender or inbox distinctness). -/
def amendedBroadcastCount (messages : TeamMessages) : Nat :=
  ((allFingerprintsOf messages).dedup.filter
    (fun k => 2 ≤ (allFingerprintsOf messages).count k)).length

/-- The amended outcome classification, phrased over stored statuses:
`no-tasks` when no items exist, `completed` when all stored statuses are
`completed`, `partial` when some but not all are, `abandoned` when none
are. -/
def specStoredOutcome (tasks : List AgentTask) : String :=
  if tasks = [] then "no-tasks"
  else if ∀ t ∈ tasks, t.status = TaskStatus.completed then "completed"
  else if ∃ t ∈ tasks, t.status = TaskStatus.completed then "partial"
  else "abandoned"

/-- Claim C10's acceptance condition: a (non-null) JSON object whose
`type` field is a string. -/
def isObjectWithStringTypeField (j : Json) : Prop :=
  (∃ fields, j = Json.obj fields) ∧ ∃ s, jsGetProp j "type" = some (Json.str s)

/-- Claim C9's conflict condition: some selected recording covers a
session name whose replay state is `playing`. -/
def specReplayConflict (st : StoreState) (selected : List RecordingInfo) : Prop :=
  ∃ r ∈ selected, ∃ name ∈ extractTeamNames r,
    ∃ rs, getTeamReplayStateSt st name = some rs ∧ rs.status = ReplayStatus.playing

/-! ## Concrete inputs for witnesses and counterexamples -/

/-- The lead member used by the example descriptors. -/
def leadMemberEx : TeamMember :=
  { agentId := "team-lead@sess", name := "team-lead", agentType := "team-lead"
    model := "claude-opus-4", cwd := "/w", color := none
    planModeRequired := none, backendType := none }

/-- Worker `w1` with its first-written attributes. -/
def w1MemberEx : TeamMember :=
  { agentId := "w1@sess", name := "w1", agentType := "general-purpose"
    model := "sonnet", cwd := "/w", color := some "blue"
    planModeRequired := none, backendType := some "in-process" }

/-- A descriptor listing the lead and `w1`. -/
def cfgWithW1Ex : TeamConfig :=
  { name := "sess", description := "d", leadAgentId := "team-lead@sess"
    leadSessionId := "u", createdAt := 0, members := [leadMemberEx, w1MemberEx] }

/-- A later descriptor write omitting `w1` (the at-shutdown rewrite). -/
def cfgWithoutW1Ex : TeamConfig :=
  { name := "sess", description := "d", leadAgentId := "team-lead@sess"
    leadSessionId := "u", createdAt := 0, members := [leadMemberEx] }

/-- Upsert sequence: `w1` appears, then a later write omits it. -/
def opsEx : List (String × TeamConfig) :=
  [("sess", cfgWithW1Ex), ("sess", cfgWithoutW1Ex)]

/-- A shutdown-approved typed message body. -/
def shutdownApprovedTextEx : String :=
  "\x7b\"type\":\"shutdown_approved\"\x7d"

/-- A shutdown-approved message from `w1` sitting in the leader's inbox. -/
def shutdownApprovedEntryEx : InboxEntry :=
  { «from» := "w1", text := shutdownApprovedTextEx, summary := none
    timestamp := "2026-01-01T00:00:10.000Z", color := some "blue", read := false }

/-- A message store whose leader inbox holds `w1`'s shutdown approval. -/
def msgsShutdownEx : TeamMessages :=
  [("team-lead", [shutdownApprovedEntryEx])]

/-- A work item owned by `w1`, stored `in_progress`. -/
def taskInProgressEx : AgentTask :=
  { id := "1", subject := "w1", description := "t", status := .in_progress
    blocks := [], blockedBy := [] }

/-- A plain broadcast-looking message. -/
def plainEntryEx : InboxEntry :=
  { «from» := "lead", text := "X", summary := none
    timestamp := "2026-01-01T00:00:01.000Z", color := none, read := false }

/-- A message store with a single inbox containing the identical message
twice: same sender, text, and timestamp, realized in only one inbox. -/
def msgsOneInboxDupEx : TeamMessages :=
  [("w1", [plainEntryEx, plainEntryEx])]

/-- Team for the lifecycle witness: a lead and worker `w1`. -/
def idleTextEx : String :=
  "\x7b\"type\":\"idle_notification\"\x7d"

/-- `w1` announces idleness into the leader's inbox. -/
def idleEntryEx : InboxEntry :=
  { «from» := "w1", text := idleTextEx, summary := none
    timestamp := "2026-01-01T00:00:05.000Z", color := some "blue", read := false }

/-- A message store whose only message from `w1` is an idle notice. -/
def msgsIdleEx : TeamMessages :=
  [("team-lead", [idleEntryEx])]

/-- Frame payloads for the recorder witness: two captures of identical
state taken at different wall times. -/
def frameAEx : Frame :=
  { timestamp := "2026-01-01T00:00:00.000Z", elapsed_ms := 0
    teams := [("sess", { config := cfgWithW1Ex, inboxes := [] })], tasks := [] }

def frameBEx : Frame :=
  { timestamp := "2026-01-01T00:00:01.000Z", elapsed_ms := 1000
    teams := [("sess", { config := cfgWithW1Ex, inboxes := [] })], tasks := [] }

/-- A frame with different payload (a task appeared). -/
def frameCEx : Frame :=
  { timestamp := "2026-01-01T00:00:02.000Z", elapsed_ms := 2000
    teams := [("sess", { config := cfgWithW1Ex, inboxes := [] })]
    tasks := [("sess", [("1", taskInProgressEx)])] }

/-- Frames for the replay-timing witness: elapsed 0 then 100 ms. -/
def replayFramesEx : List Frame :=
  [{ timestamp := "t0", elapsed_ms := 0, teams := [], tasks := [] },
   { timestamp := "t1", elapsed_ms := 100, teams := [], tasks := [] }]

/-- A replay state marking session `sess` as currently playing. -/
def playingStateEx : TeamReplayState :=
  { recordingDir := "/rec/old", status := .playing, speed := 1
    currentFrame := 1, totalFrames := 4, progressPct := 25 }

/-- A store in which `sess` is already under replay. -/
def storePlayingEx : StoreState :=
  { teams := [], tasks := [], messages := [], replayStates := [("sess", playingStateEx)] }

/-- A selected recording whose manifest covers `sess`. -/
def recordingEx : RecordingInfo :=
  { dir := "/rec/new", manifestTeamNames := some ["sess"], frames := [frameAEx] }

/-! # Theorems -/

/-! ## Association-list lemmas -/

theorem mapLookup_mapSet_self {α : Type} (l : List (String × α)) (k : String) (v : α) :
    mapLookup (mapSet l k v) k = some v := by
  induction l with
  | nil => simp [mapSet, mapLookup]
  | cons hd tl ih =>
    obtain ⟨k', v'⟩ := hd
    by_cases h : k' = k <;> simp [mapSet, mapLookup, h, ih]

theorem mapLookup_mapSet_ne {α : Type} (l : List (String × α)) (k k' : String) (v : α)
    (hne : k ≠ k') : mapLookup (mapSet l k v) k' = mapLookup l k' := by
  induction l with
  | nil => simp [mapSet, mapLookup, hne]
  | cons hd tl ih =>
    obtain ⟨k₀, v₀⟩ := hd
    by_cases h : k₀ = k
    · subst h
      simp [mapSet, mapLookup, hne]
    · simp [mapSet, mapLookup, h, ih]

/-- A binding found by `mapLookup` is a member of the list. -/
theorem mapLookup_mem {α : Type} (l : List (String × α)) (k : String) (v : α)
    (h : mapLookup l k = some v) : (k, v) ∈ l := by
  induction l with
  | nil => simp [mapLookup] at h
  | cons hd tl ih =>
    obtain ⟨k', v'⟩ := hd
    by_cases hk : k' = k
    · subst hk
      simp [mapLookup] at h
      simp [h]
    · simp [mapLookup, hk] at h
      exact List.mem_cons_of_mem _ (ih h)

/-! ## C10: typed-message parsing -/


theorem typed_accept_iff (parsed : Json) :
    (jsTruthy parsed && jsTypeofIsObject parsed && jsIsString (jsGetProp parsed "type")) = true
      ↔ isObjectWithStringTypeField parsed := by
  cases parsed with
  | null => simp [jsTruthy, jsTypeofIsObject, jsIsString, isObjectWithStringTypeField]
  | bool b => simp [jsTruthy, jsTypeofIsObject, jsIsString, isObjectWithStringTypeField]
  | num raw => simp [jsTruthy, jsTypeofIsObject, jsIsString, isObjectWithStringTypeField]
  | str s => simp [jsTruthy, jsTypeofIsObject, jsIsString, isObjectWithStringTypeField]
  | arr elems => simp [jsTruthy, jsTypeofIsObject, jsIsString, isObjectWithStringTypeField, jsGetProp]
  | obj fields =>
    simp only [jsTruthy, jsTypeofIsObject, Bool.true_and, isObjectWithStringTypeField]
    constructor
    · intro h
      refine ⟨⟨fields, rfl⟩, ?_⟩
      cases hg : jsGetProp (Json.obj fields) "type" with
      | none => rw [hg] at h; simp [jsIsString] at h
      | some v =>
        cases v with
        | str s => exact ⟨s, rfl⟩
        | null => rw [hg] at h; simp [jsIsString] at h
        | bool b => rw [hg] at h; simp [jsIsString] at h
        | num raw => rw [hg] at h; simp [jsIsString] at h
        | arr es => rw [hg] at h; simp [jsIsString] at h
        | obj fs => rw [hg] at h; simp [jsIsString] at h
    · rintro ⟨-, s, hs⟩
      rw [hs]
      simp [jsIsString]

/-- C10: `parseTypedMessage` is total with a plain-text fallback: it
returns the parsed value exactly when the text is valid JSON for a
non-null object whose `type` field is a string, and `null` (here `none`)
in every other case — non-JSON text, scalars, arrays, objects without a
string `type` field.  (Totality holds by construction: the `try`/`catch`
is modelled by `jsonParse` returning an `Option`.) -/
theorem claim10_parse_typed_message_total_fallback (text : String) (j : Json) :
    parseTypedMessage text = some j ↔ jsonParse text = some j ∧ isObjectWithStringTypeField j := by
  unfold parseTypedMessage
  cases h : jsonParse text with
  | none => simp
  | some parsed =>
    dsimp only
    by_cases hc : (jsTruthy parsed && jsTypeofIsObject parsed && jsIsString (jsGetProp parsed "type")) = true
    · rw [if_pos hc]
      constructor
      · intro heq
        injection heq with heq
        exact ⟨by rw [heq], heq ▸ (typed_accept_iff parsed).mp hc⟩
      · rintro ⟨hj, -⟩
        injection hj with hj
        rw [hj]
    · rw [if_neg hc]
      constructor
      · intro hfalse
        exact absurd hfalse (by simp)
      · rintro ⟨hj, hP⟩
        injection hj with hj
        subst hj
        exact absurd ((typed_accept_iff parsed).mpr hP) hc


/-! ## C4: archived outcome classification -/

/-- C4 counterexample: a session with one work item stored `in_progress`
whose owner `w1` has a shutdown-approved message in the leader's inbox.
The item's effective status is `completed` — so the claim ("`completed` if
all items reached effective-completed status") demands outcome
`completed` — but `buildSessionRecord` classifies from stored statuses and
yields `abandoned`. -/
theorem claim4_counterexample :
    getEffectiveTaskStatus msgsShutdownEx taskInProgressEx = TaskStatus.completed ∧
      sessionOutcome [taskInProgressEx] = "abandoned" := by
  constructor
  · decide
  · decide

/-- One task's Bool status test agrees with the Prop one. -/
theorem status_beq_iff (t : AgentTask) :
    (t.status == TaskStatus.completed) = true ↔ t.status = TaskStatus.completed := by
  cases t
  simp [beq_iff_eq]

/-- C4 (amended): the archived outcome is classified from *stored*
statuses: `no-tasks` when no items exist, `completed` when every item's
stored status is `completed`, `partial` when some but not all are,
`abandoned` when none are. -/
theorem claim4_outcome_classification (tasks : List AgentTask) :
    sessionOutcome tasks = specStoredOutcome tasks := by
  unfold sessionOutcome specStoredOutcome completedTasksCount
  by_cases h0 : tasks = []
  · subst h0
    simp
  · have hlen0 : tasks.length ≠ 0 := fun h => h0 (List.length_eq_zero.mp h)
    rw [if_neg hlen0, if_neg h0]
    by_cases hall : ∀ t ∈ tasks, t.status = TaskStatus.completed
    · have hfeq : tasks.filter (fun t => t.status == TaskStatus.completed) = tasks := by
        apply List.filter_eq_self.mpr
        intro a ha
        exact (status_beq_iff a).mpr (hall a ha)
      rw [if_pos hall, hfeq, if_pos rfl]
    · have hflt : (tasks.filter (fun t => t.status == TaskStatus.completed)).length ≠ tasks.length := by
        intro hlen
        apply hall
        intro t ht
        have := List.filter_eq_self.mp ((List.filter_sublist tasks).eq_of_length hlen)
        exact (status_beq_iff t).mp (this t ht)
      rw [if_neg hall, if_neg hflt]
      by_cases hex : ∃ t ∈ tasks, t.status = TaskStatus.completed
      · obtain ⟨t, ht, hts⟩ := hex
        have : t ∈ tasks.filter (fun t => t.status == TaskStatus.completed) :=
          List.mem_filter.mpr ⟨ht, (status_beq_iff t).mpr hts⟩
        have hpos : 0 < (tasks.filter (fun t => t.status == TaskStatus.completed)).length :=
          List.length_pos.mpr (fun hnil => by rw [hnil] at this; exact absurd this (List.not_mem_nil t))
        rw [if_pos (⟨t, ht, hts⟩ : ∃ t ∈ tasks, t.status = TaskStatus.completed), if_pos hpos]
      · have hnil : tasks.filter (fun t => t.status == TaskStatus.completed) = [] := by
          apply List.filter_eq_nil_iff.mpr
          intro t ht hbeq
          exact hex ⟨t, ht, (status_beq_iff t).mp hbeq⟩
        rw [if_neg hex, hnil]
        simp

/-! ## C6: session-level status derivation -/

/-- C6 counterexample: with no members at all, every (of the zero)
non-leader lifecycles is `shutdown`, so the claim — quantifying over the
possibly-empty set — demands `completed`; `deriveTeamStatus` requires a
non-empty set and returns `active`. -/
theorem claim6_counterexample :
    (∀ l ∈ nonLeadLifecycles ([] : List (String × Lifecycle)) ([] : List TeamMember),
        l = Lifecycle.shutdown) ∧
      deriveTeamStatus [] [] = TeamStatus.active := by
  constructor
  · decide
  · decide

/-- C6 (amended): the derived session status is `completed` iff there is
at least one non-leader lifecycle and all of them are `shutdown`;
`winding_down` when (that fails and) some non-leader is `shutting_down` or
`shutdown`; `active` otherwise. -/
theorem claim6_team_status_derivation (states : List (String × Lifecycle))
    (members : List TeamMember) :
    deriveTeamStatus states members =
      (if nonLeadLifecycles states members ≠ [] ∧
          ∀ l ∈ nonLeadLifecycles states members, l = Lifecycle.shutdown then
        TeamStatus.completed
      else if ∃ l ∈ nonLeadLifecycles states members,
          l = Lifecycle.shutting_down ∨ l = Lifecycle.shutdown then
        TeamStatus.winding_down
      else TeamStatus.active) := by
  unfold deriveTeamStatus
  set nl := nonLeadLifecycles states members with hnl
  by_cases hc : nl ≠ [] ∧ ∀ l ∈ nl, l = Lifecycle.shutdown
  · rw [if_pos hc]
    have hlen : 0 < nl.length := List.length_pos.mpr hc.1
    have hall : nl.all (fun s => s == Lifecycle.shutdown) = true := by
      apply List.all_eq_true.mpr
      intro l hl
      exact beq_iff_eq.mpr (hc.2 l hl)
    have hb : (decide (nl.length > 0) && nl.all (fun s => s == Lifecycle.shutdown)) = true := by
      rw [Bool.and_eq_true]
      exact ⟨by simpa using hlen, hall⟩
    simpa using (if_pos hb :
      (if (decide (nl.length > 0) && nl.all (fun s => s == Lifecycle.shutdown)) = true then
        TeamStatus.completed
      else if nl.any (fun s => s == Lifecycle.shutting_down || s == Lifecycle.shutdown) then
        TeamStatus.winding_down
      else TeamStatus.active) = TeamStatus.completed)
  · rw [if_neg hc]
    have hfirst : ¬(nl.length > 0 && nl.all (fun s => s == Lifecycle.shutdown)) = true := by
      intro hb
      obtain ⟨h1, h2⟩ := Bool.and_eq_true_iff.mp hb
      apply hc
      constructor
      · exact List.length_pos.mp (by simpa using h1)
      · intro l hl
        exact beq_iff_eq.mp (List.all_eq_true.mp h2 l hl)
    rw [if_neg hfirst]
    by_cases hany : ∃ l ∈ nl, l = Lifecycle.shutting_down ∨ l = Lifecycle.shutdown
    · rw [if_pos hany]
      have : nl.any (fun s => s == Lifecycle.shutting_down || s == Lifecycle.shutdown) = true := by
        apply List.any_eq_true.mpr
        obtain ⟨l, hl, hor⟩ := hany
        refine ⟨l, hl, ?_⟩
        rcases hor with h | h
        · simp [h]
        · simp [h]
      rw [if_pos this]
    · rw [if_neg hany]
      have : ¬nl.any (fun s => s == Lifecycle.shutting_down || s == Lifecycle.shutdown) = true := by
        intro hb
        obtain ⟨l, hl, hor⟩ := List.any_eq_true.mp hb
        apply hany
        refine ⟨l, hl, ?_⟩
        rcases Bool.or_eq_true_iff.mp hor with h | h
        · exact Or.inl (beq_iff_eq.mp h)
        · exact Or.inr (beq_iff_eq.mp h)
      rw [if_neg this]


/-! ## C2: effective work-item status promotion -/

/-- Membership in `getShutdownAgents` is exactly the spec's "the leader's
inbox contains a shutdown-approved typed message whose sender is the
participant". -/
theorem mem_getShutdownAgents_iff (msgs : TeamMessages) (agent : String) :
    agent ∈ getShutdownAgents msgs ↔ specShutdownApprovedFrom msgs agent := by
  unfold getShutdownAgents specShutdownApprovedFrom leadInboxEntries
  cases h : mapLookup msgs "team-lead" with
  | none => simp
  | some leadMsgs =>
    simp only [Option.getD_some, List.mem_map, List.mem_filter]
    constructor
    · rintro ⟨e, ⟨he, ht⟩, hfrom⟩
      exact ⟨e, he, ht, hfrom⟩
    · rintro ⟨e, he, ht, hfrom⟩
      exact ⟨e, ⟨he, ht⟩, hfrom⟩

/-- C2: `getEffectiveTaskStatus` returns `completed` when the stored
status is `completed`; promotes stored `in_progress` to `completed`
exactly when the leader's inbox contains a shutdown-approved typed message
whose sender is the item's subject, and returns `in_progress` otherwise;
every other stored status passes through unchanged. -/
theorem claim2_effective_status_promotion (msgs : TeamMessages) (task : AgentTask) :
    getEffectiveTaskStatus msgs task = specEffectiveStatus msgs task := by
  unfold getEffectiveTaskStatus specEffectiveStatus
  by_cases h1 : task.status = TaskStatus.completed
  · rw [if_pos h1, if_pos h1]
  · rw [if_neg h1, if_neg h1]
    by_cases h2 : task.status = TaskStatus.in_progress
    · rw [if_pos h2, if_pos h2]
      by_cases h3 : specShutdownApprovedFrom msgs task.subject
      · have : (getShutdownAgents msgs).contains task.subject = true := by
          rw [List.contains_iff_exists_mem_beq]
          exact ⟨task.subject, (mem_getShutdownAgents_iff msgs task.subject).mpr h3, by simp⟩
        rw [if_pos this, if_pos h3]
      · have : ¬(getShutdownAgents msgs).contains task.subject = true := by
          intro hb
          obtain ⟨a, ha, hbeq⟩ := List.contains_iff_exists_mem_beq.mp hb
          rw [show a = task.subject from (beq_iff_eq.mp hbeq).symm] at ha
          exact h3 ((mem_getShutdownAgents_iff msgs task.subject).mp ha)
        rw [if_neg this, if_neg h3, h2]
    · rw [if_neg h2, if_neg h2]


/-! ## C7: recorder deduplication -/

theorem captureSeq_append_one (fs : List Frame) (f : Frame) :
    captureSeq (fs ++ [f]) = captureFrameImmediate (captureSeq fs) f := by
  unfold captureSeq
  rw [List.foldl_append]
  rfl

/-- Invariant of any capture sequence: adjacent stored frames have
distinct hashes, and `lastHash` is the hash of the last stored frame. -/
theorem captureSeq_invariant (fs : List Frame) :
    List.Chain' (fun a b => hashFrame a ≠ hashFrame b) (captureSeq fs).storedFrames ∧
      ((captureSeq fs).lastHash = none → (captureSeq fs).storedFrames = []) ∧
      (∀ h, (captureSeq fs).lastHash = some h →
        ∃ lf, (captureSeq fs).storedFrames.getLast? = some lf ∧ hashFrame lf = h) := by
  induction fs using List.reverseRecOn with
  | nil =>
    refine ⟨?_, ?_, ?_⟩
    · simp [captureSeq, freshRecording]
    · intro _
      rfl
    · intro h hcontra
      simp [captureSeq, freshRecording] at hcontra
  | append_singleton fs f ih =>
    obtain ⟨ihChain, ihNone, ihSome⟩ := ih
    rw [captureSeq_append_one]
    unfold captureFrameImmediate
    by_cases hdup : some (hashFrame f) = (captureSeq fs).lastHash
    · rw [if_pos hdup]
      exact ⟨ihChain, ihNone, ihSome⟩
    · rw [if_neg hdup]
      refine ⟨?_, ?_, ?_⟩
      · rw [List.chain'_append]
        refine ⟨ihChain, List.chain'_singleton f, ?_⟩
        intro x hx y hy
        simp only [List.head?_cons, Option.mem_def, Option.some.injEq] at hy
        subst hy
        cases hlh : (captureSeq fs).lastHash with
        | none =>
          rw [ihNone hlh] at hx
          simp at hx
        | some hsh =>
          obtain ⟨lf, hlf, hlfh⟩ := ihSome hsh hlh
          rw [hlf] at hx
          simp only [Option.mem_def, Option.some.injEq] at hx
          subst hx
          intro heq
          apply hdup
          rw [hlh, ← heq, hlfh]
      · intro hcontra
        simp at hcontra
      · intro h hsome
        simp only [Option.some.injEq] at hsome
        subst hsome
        exact ⟨f, by rw [List.getLast?_concat], rfl⟩

/-- C7: a built frame is stored iff its payload hash differs from the
previous stored frame's hash; no two adjacent stored frames have equal
payloads; and capturing the identical payload twice in a row stores at
most one frame. -/
theorem claim7_recorder_dedup (fs : List Frame) (f g : Frame) :
    ((captureSeq (fs ++ [f])).storedFrames =
      (captureSeq fs).storedFrames ++
        (if some (hashFrame f) = (captureSeq fs).lastHash then [] else [f])) ∧
      List.Chain' (fun a b => hashFrame a ≠ hashFrame b) (captureSeq fs).storedFrames ∧
      (hashFrame f = hashFrame g →
        (captureSeq (fs ++ [f] ++ [g])).storedFrames = (captureSeq (fs ++ [f])).storedFrames) := by
  refine ⟨?_, (captureSeq_invariant fs).1, ?_⟩
  · rw [captureSeq_append_one]
    unfold captureFrameImmediate
    by_cases hdup : some (hashFrame f) = (captureSeq fs).lastHash
    · rw [if_pos hdup, if_pos hdup, List.append_nil]
    · rw [if_neg hdup, if_neg hdup]
  · intro hfg
    rw [captureSeq_append_one (fs ++ [f]) g]
    have hlast : (captureSeq (fs ++ [f])).lastHash = some (hashFrame f) := by
      rw [captureSeq_append_one]
      unfold captureFrameImmediate
      by_cases hdup : some (hashFrame f) = (captureSeq fs).lastHash
      · rw [if_pos hdup, ← hdup]
      · rw [if_neg hdup]
    unfold captureFrameImmediate
    rw [if_pos (by rw [hlast, hfg])]

/-- C7 witness: two captures of identical payload taken at different wall
times store nothing on the second capture. -/
theorem claim7_witness :
    (captureSeq ([] ++ [frameAEx] ++ [frameBEx])).storedFrames =
      (captureSeq ([] ++ [frameAEx])).storedFrames :=
  (claim7_recorder_dedup [] frameAEx frameBEx).2.2 rfl


/-! ## C9: replay conflict rejection -/

/-- C9: when any session name covered by a selected recording already has
a `playing` replay state, `startReplay` rejects the whole request
synchronously and returns the store untouched — no frame application, no
replay-state creation or change. -/
theorem claim9_replay_conflict_rejection (st : StoreState) (selected : List RecordingInfo)
    (speed : Rat) (h : specReplayConflict st selected) :
    startReplay st selected speed = StartReplayResult.rejected st := by
  obtain ⟨r, hr, name, hname, rs, hrs, hstatus⟩ := h
  unfold startReplay
  rw [if_pos ?_]
  apply List.any_eq_true.mpr
  refine ⟨r, hr, ?_⟩
  apply List.any_eq_true.mpr
  refine ⟨name, hname, ?_⟩
  unfold getTeamReplayStateSt at hrs
  simp only [getTeamReplayStateSt, hrs]
  exact beq_iff_eq.mpr hstatus

/-- C9 witness: a store in which `sess` is mid-replay rejects a request
covering `sess` and stays unchanged. -/
theorem claim9_witness :
    startReplay storePlayingEx [recordingEx] 1 = StartReplayResult.rejected storePlayingEx :=
  claim9_replay_conflict_rejection storePlayingEx [recordingEx] 1
    ⟨recordingEx, by simp, "sess", by decide, playingStateEx, rfl, rfl⟩


/-! ## C8: replay ordering and timing -/

theorem playTraceAux_cons (f : Frame) (rest : List Frame) (speed prev : Rat) (i : Nat) :
    playTraceAux (f :: rest) speed prev i =
      (if 0 < i ∧ 0 < speed ∧ 0 < f.elapsed_ms - prev then
        [ReplayEvent.wait ((f.elapsed_ms - prev) / speed)]
      else []) ++ ReplayEvent.apply i :: playTraceAux rest speed f.elapsed_ms (i + 1) := rfl

theorem applyIndices_playTraceAux (fs : List Frame) (speed prev : Rat) (i : Nat) :
    applyIndices (playTraceAux fs speed prev i) = List.range' i fs.length := by
  induction fs generalizing prev i with
  | nil => rfl
  | cons f rest ih =>
    rw [playTraceAux_cons]
    unfold applyIndices
    rw [List.filterMap_append]
    have hgap : List.filterMap
        (fun e => match e with | ReplayEvent.apply i => some i | ReplayEvent.wait _ => none)
        (if 0 < i ∧ 0 < speed ∧ 0 < f.elapsed_ms - prev then
          [ReplayEvent.wait ((f.elapsed_ms - prev) / speed)]
        else []) = [] := by
      split <;> rfl
    rw [hgap, List.nil_append, List.filterMap_cons]
    simp only []
    rw [show (List.range' i (f :: rest).length) = i :: List.range' (i + 1) rest.length from
      List.range'_succ i rest.length 1]
    exact congrArg (i :: ·) (ih f.elapsed_ms (i + 1))

theorem waitDurations_playTraceAux_zero (fs : List Frame) (prev : Rat) (i : Nat) :
    waitDurations (playTraceAux fs 0 prev i) = [] := by
  induction fs generalizing prev i with
  | nil => rfl
  | cons f rest ih =>
    rw [playTraceAux_cons]
    rw [if_neg (by rintro ⟨-, h, -⟩; exact lt_irrefl 0 h)]
    rw [List.nil_append]
    unfold waitDurations
    rw [List.filterMap_cons]
    simp only []
    exact ih f.elapsed_ms (i + 1)

theorem afterApplyIdx_here (f : Frame) (rest : List Frame) (speed prev : Rat) (i : Nat) :
    afterApplyIdx i (playTraceAux (f :: rest) speed prev i) =
      playTraceAux rest speed f.elapsed_ms (i + 1) := by
  rw [playTraceAux_cons]
  unfold afterApplyIdx
  split
  · rw [List.singleton_append, List.dropWhile_cons]
    simp [List.dropWhile_cons]
  · rw [List.nil_append, List.dropWhile_cons]
    simp

theorem afterApplyIdx_later (f : Frame) (rest : List Frame) (speed prev : Rat) (i j : Nat)
    (hij : i ≠ j) :
    afterApplyIdx j (playTraceAux (f :: rest) speed prev i) =
      afterApplyIdx j (playTraceAux rest speed f.elapsed_ms (i + 1)) := by
  rw [playTraceAux_cons]
  unfold afterApplyIdx
  have happ : (ReplayEvent.apply i == ReplayEvent.apply j) = false := by
    simp [hij]
  split
  · rw [List.singleton_append, List.dropWhile_cons]
    simp only [List.dropWhile_cons, happ]
    simp
  · rw [List.nil_append, List.dropWhile_cons]
    simp [happ]

theorem takeWhile_gap (g : Frame) (rest : List Frame) (speed prev : Rat) (i : Nat) :
    (playTraceAux (g :: rest) speed prev i).takeWhile (fun e => !isApplyEvent e) =
      (if 0 < i ∧ 0 < speed ∧ 0 < g.elapsed_ms - prev then
        [ReplayEvent.wait ((g.elapsed_ms - prev) / speed)]
      else []) := by
  rw [playTraceAux_cons]
  split
  · rw [List.singleton_append, List.takeWhile_cons]
    simp [isApplyEvent, List.takeWhile_cons]
  · rw [List.nil_append, List.takeWhile_cons]
    simp [isApplyEvent]

theorem sumWaits_single (d : Rat) : sumWaits [ReplayEvent.wait d] = d := by
  simp [sumWaits, waitDurations]

theorem sumWaits_nil : sumWaits [] = 0 := rfl

theorem waitGap_aux (fs : List Frame) (speed : Rat) :
    ∀ (prev : Rat) (i j : Nat), j + 1 < fs.length →
      sumWaits ((afterApplyIdx (i + j) (playTraceAux fs speed prev i)).takeWhile
          (fun e => !isApplyEvent e)) =
        (if 0 < speed ∧
            0 < (fs.getD (j + 1) defaultFrame).elapsed_ms - (fs.getD j defaultFrame).elapsed_ms then
          ((fs.getD (j + 1) defaultFrame).elapsed_ms - (fs.getD j defaultFrame).elapsed_ms) / speed
        else 0) := by
  induction fs with
  | nil =>
    intro prev i j h
    simp at h
  | cons f rest ih =>
    intro prev i j h
    cases j with
    | zero =>
      cases rest with
      | nil => simp at h
      | cons g rest' =>
        rw [Nat.add_zero, afterApplyIdx_here, takeWhile_gap]
        rw [List.getD_cons_succ, List.getD_cons_zero, List.getD_cons_zero]
        by_cases hc : 0 < speed ∧ 0 < g.elapsed_ms - f.elapsed_ms
        · rw [if_pos ⟨Nat.succ_pos i, hc.1, hc.2⟩, if_pos hc, sumWaits_single]
        · rw [if_neg (by rintro ⟨-, h2, h3⟩; exact hc ⟨h2, h3⟩), if_neg hc, sumWaits_nil]
    | succ j' =>
      rw [show i + (j' + 1) = (i + 1) + j' by omega]
      rw [afterApplyIdx_later f rest speed prev i ((i + 1) + j') (by omega)]
      rw [ih f.elapsed_ms (i + 1) j' (by simpa using h)]
      rw [List.getD_cons_succ, List.getD_cons_succ]

/-- C8: frames are applied strictly in frame order (the trace's apply
events are exactly `0, 1, …, n-1` in order); at speed 0 the trace
contains no wait at all; and for speed > 0 and recorder-produced
(non-decreasing-elapsed) frames, the total wait between applying frame
`i-1` and frame `i` equals `(elapsed[i] − elapsed[i-1]) / speed`. -/
theorem claim8_replay_ordering_and_timing (fs : List Frame) (speed : Rat) :
    applyIndices (playTrace fs speed) = List.range fs.length ∧
      (speed = 0 → waitDurations (playTrace fs speed) = []) ∧
      (0 < speed →
        List.Chain' (fun a b => a.elapsed_ms ≤ b.elapsed_ms) fs →
        ∀ i, 1 ≤ i → i < fs.length →
          waitBetween (playTrace fs speed) i =
            ((fs.getD i defaultFrame).elapsed_ms - (fs.getD (i - 1) defaultFrame).elapsed_ms)
              / speed) := by
  refine ⟨?_, ?_, ?_⟩
  · rw [playTrace, applyIndices_playTraceAux, List.range_eq_range']
  · intro h0
    rw [playTrace, h0, waitDurations_playTraceAux_zero]
  · intro hspeed hchain i h1 hlen
    unfold waitBetween
    rw [playTrace]
    have hj : (i - 1) + 1 < fs.length := by omega
    have := waitGap_aux fs speed 0 0 (i - 1) hj
    rw [Nat.zero_add] at this
    rw [this]
    have hi : (i - 1) + 1 = i := by omega
    rw [hi]
    have hmono : (fs.getD (i - 1) defaultFrame).elapsed_ms ≤ (fs.getD i defaultFrame).elapsed_ms := by
      have hget := List.chain'_iff_get.mp hchain (i - 1) (by omega)
      rw [List.getD_eq_getElem fs defaultFrame (by omega : i - 1 < fs.length),
        List.getD_eq_getElem fs defaultFrame hlen]
      simpa [List.get_eq_getElem, hi] using hget
    by_cases hpos :
        0 < (fs.getD i defaultFrame).elapsed_ms - (fs.getD (i - 1) defaultFrame).elapsed_ms
    · rw [if_pos ⟨hspeed, hpos⟩]
    · rw [if_neg (by rintro ⟨-, hc⟩; exact hpos hc)]
      have hzero :
          (fs.getD i defaultFrame).elapsed_ms - (fs.getD (i - 1) defaultFrame).elapsed_ms = 0 := by
        have hle : (fs.getD i defaultFrame).elapsed_ms -
            (fs.getD (i - 1) defaultFrame).elapsed_ms ≤ 0 := by linarith [not_lt.mp hpos]
        linarith [sub_nonneg.mpr hmono]
      rw [hzero, zero_div]

/-- C8 witness: at speed 0 no wait is emitted; at speed 2, the wait before
frame 1 of the example recording (elapsed 0 then 100) is 50. -/
theorem claim8_witness :
    waitDurations (playTrace replayFramesEx 0) = [] ∧
      waitBetween (playTrace replayFramesEx 2) 1 = 50 := by
  constructor
  · exact (claim8_replay_ordering_and_timing replayFramesEx 0).2.1 rfl
  · have h := (claim8_replay_ordering_and_timing replayFramesEx 2).2.2 (by norm_num)
      (by simp [replayFramesEx, List.chain'_cons]) 1 (le_refl 1) (by decide)
    rw [h]
    simp only [replayFramesEx, List.getD_cons_succ, List.getD_cons_zero]
    norm_num


/-! ## C3: broadcast detection -/

theorem mapLookup_bumpCount_self (l : List (String × Nat)) (k : String) :
    mapLookup (bumpCount l k) k = some ((mapLookup l k).getD 0 + 1) := by
  unfold bumpCount
  rw [mapLookup_mapSet_self]

theorem mapLookup_bumpCount_ne (l : List (String × Nat)) (k k' : String) (h : k ≠ k') :
    mapLookup (bumpCount l k) k' = mapLookup l k' := by
  unfold bumpCount
  exact mapLookup_mapSet_ne l k k' _ h

theorem keys_mapSet {α : Type} (l : List (String × α)) (k : String) (v : α) :
    (mapSet l k v).map Prod.fst =
      if k ∈ l.map Prod.fst then l.map Prod.fst else l.map Prod.fst ++ [k] := by
  induction l with
  | nil => simp [mapSet]
  | cons hd tl ih =>
    obtain ⟨k₀, v₀⟩ := hd
    by_cases h : k₀ = k
    · subst h
      simp [mapSet]
    · by_cases hm : k ∈ tl.map Prod.fst
      · simp only [mapSet, if_neg h, List.map_cons, ih, if_pos hm]
        rw [if_pos (List.mem_cons_of_mem _ hm)]
      · have hnotc : ¬ k ∈ k₀ :: tl.map Prod.fst := by
          rw [List.mem_cons]
          rintro (rfl | hk)
          · exact h rfl
          · exact hm hk
        simp only [mapSet, if_neg h, List.map_cons, ih, if_neg hm]
        rw [if_neg hnotc]
        simp

theorem nodup_append_single {α : Type} (l : List α) (a : α) (h : l.Nodup) (ha : a ∉ l) :
    (l ++ [a]).Nodup := by
  induction l with
  | nil => simp
  | cons b tl ih =>
    rw [List.cons_append, List.nodup_cons]
    rw [List.nodup_cons] at h
    constructor
    · intro hb
      rcases List.mem_append.mp hb with hb | hb
      · exact h.1 hb
      · rw [List.mem_singleton] at hb
        exact ha (hb ▸ List.mem_cons_self b tl)
    · exact ih h.2 (fun hm => ha (List.mem_cons_of_mem _ hm))

/-- The counter fold: lookup after processing `ks` starting from `acc`. -/
theorem mapLookup_countFold (ks : List String) :
    ∀ (acc : List (String × Nat)) (k : String),
      mapLookup (ks.foldl bumpCount acc) k =
        if k ∈ ks then some ((mapLookup acc k).getD 0 + ks.count k) else mapLookup acc k := by
  induction ks with
  | nil =>
    intro acc k
    simp
  | cons k₀ ks ih =>
    intro acc k
    rw [List.foldl_cons, ih]
    by_cases hk : k = k₀
    · subst hk
      rw [mapLookup_bumpCount_self]
      by_cases hm : k ∈ ks
      · rw [if_pos hm, if_pos (List.mem_cons_self k ks), List.count_cons_self]
        simp only [Option.getD_some]
        exact congrArg some (by omega)
      · rw [if_neg hm, if_pos (List.mem_cons_self k ks), List.count_cons_self]
        have : ks.count k = 0 := List.count_eq_zero.mpr hm
        rw [this]
    · rw [mapLookup_bumpCount_ne acc k₀ k (fun h => hk h.symm)]
      by_cases hm : k ∈ ks
      · rw [if_pos hm, if_pos (List.mem_cons_of_mem _ hm),
          List.count_cons_of_ne (fun h => hk h) ks]
      · rw [if_neg hm, if_neg (by simp [hk, hm])]

/-- Keys of the counter fold: no duplicates, and exactly the processed
keys plus the accumulator's. -/
theorem keys_countFold (ks : List String) :
    ∀ (acc : List (String × Nat)), (acc.map Prod.fst).Nodup →
      ((ks.foldl bumpCount acc).map Prod.fst).Nodup ∧
        ∀ k, k ∈ (ks.foldl bumpCount acc).map Prod.fst ↔ k ∈ acc.map Prod.fst ∨ k ∈ ks := by
  induction ks with
  | nil =>
    intro acc hacc
    refine ⟨hacc, ?_⟩
    intro k
    simp
  | cons k₀ ks ih =>
    intro acc hacc
    have hbkeys : (bumpCount acc k₀).map Prod.fst =
        if k₀ ∈ acc.map Prod.fst then acc.map Prod.fst else acc.map Prod.fst ++ [k₀] := by
      unfold bumpCount
      exact keys_mapSet acc k₀ _
    have hbnodup : ((bumpCount acc k₀).map Prod.fst).Nodup := by
      rw [hbkeys]
      split
      · exact hacc
      · exact nodup_append_single _ _ hacc (by assumption)
    obtain ⟨hnd, hmem⟩ := ih (bumpCount acc k₀) hbnodup
    refine ⟨hnd, ?_⟩
    intro k
    rw [List.foldl_cons, hmem k, hbkeys]
    by_cases hm : k₀ ∈ acc.map Prod.fst
    · rw [if_pos hm]
      constructor
      · rintro (h | h)
        · exact Or.inl h
        · exact Or.inr (List.mem_cons_of_mem _ h)
      · rintro (h | h)
        · exact Or.inl h
        · rcases List.mem_cons.mp h with rfl | h
          · exact Or.inl hm
          · exact Or.inr h
    · rw [if_neg hm]
      constructor
      · rintro (h | h)
        · rcases List.mem_append.mp h with h | h
          · exact Or.inl h
          · rw [List.mem_singleton] at h
            exact Or.inr (h ▸ List.mem_cons_self k₀ ks)
        · exact Or.inr (List.mem_cons_of_mem _ h)
      · rintro (h | h)
        · exact Or.inl (List.mem_append.mpr (Or.inl h))
        · rcases List.mem_cons.mp h with rfl | h
          · exact Or.inl (List.mem_append.mpr (Or.inr (List.mem_singleton.mpr rfl)))
          · exact Or.inr h

/-- Counting pairs with value above 1 equals counting their keys, for a
counter with no duplicate keys. -/
theorem filter_pairs_eq_filter_keys (fps : List (String × Nat))
    (hnd : (fps.map Prod.fst).Nodup) :
    (fps.filter (fun p => p.2 > 1)).length =
      ((fps.map Prod.fst).filter (fun k => (mapLookup fps k).getD 0 > 1)).length := by
  induction fps with
  | nil => rfl
  | cons hd tl ih =>
    obtain ⟨k₀, v₀⟩ := hd
    rw [List.map_cons, List.nodup_cons] at hnd
    obtain ⟨hk₀, htl⟩ := hnd
    have hlook : ∀ k ∈ tl.map Prod.fst,
        (mapLookup ((k₀, v₀) :: tl) k).getD 0 = (mapLookup tl k).getD 0 := by
      intro k hk
      have : k₀ ≠ k := fun h => hk₀ (h ▸ hk)
      simp [mapLookup, this]
    have hcongr : (tl.map Prod.fst).filter (fun k => (mapLookup ((k₀, v₀) :: tl) k).getD 0 > 1) =
        (tl.map Prod.fst).filter (fun k => (mapLookup tl k).getD 0 > 1) := by
      apply List.filter_congr
      intro k hk
      rw [hlook k hk]
    have hself : (mapLookup ((k₀, v₀) :: tl) k₀).getD 0 = v₀ := by
      simp [mapLookup]
    rw [List.map_cons, List.filter_cons, List.filter_cons, hcongr, hself]
    by_cases hv : v₀ > 1
    · simp [hv, ih htl]
    · simp [hv, ih htl]

/-- C3 counterexample: a session whose messages all sit in a single inbox
— the identical message (same sender, text, timestamp) stored twice in
that one inbox — is counted as one broadcast by the source, although the
claim ("a group counts as exactly one broadcast iff it is realized in two
or more distinct inboxes; the identical message appearing in only one
inbox is not counted") demands zero broadcasts for a single-inbox store. -/
theorem claim3_counterexample :
    msgsOneInboxDupEx.length = 1 ∧ broadcastCount msgsOneInboxDupEx = 1 := by
  constructor
  · rfl
  · decide

/-- C3 (amended): the broadcast counter groups by the pair (text, exact
timestamp string) — the sender is not part of the key and no rounding to
seconds occurs — and counts one broadcast per group with two or more
occurrences anywhere, even within a single inbox. -/
theorem claim3_broadcast_count (messages : TeamMessages) :
    broadcastCount messages = amendedBroadcastCount messages := by
  unfold broadcastCount amendedBroadcastCount
  set ks := allFingerprintsOf messages with hks
  have hfold : messages.foldl (fun acc p =>
      p.2.foldl (fun acc e => bumpCount acc (msgFingerprint e)) acc) [] =
      ks.foldl bumpCount [] := by
    rw [hks]
    unfold allFingerprintsOf
    rw [List.foldl_map, List.foldl_flatten, List.foldl_map]
  rw [hfold]
  obtain ⟨hnd, hmem⟩ := keys_countFold ks [] (by simp)
  rw [filter_pairs_eq_filter_keys _ hnd]
  have hlookup : ∀ k ∈ (ks.foldl bumpCount []).map Prod.fst,
      (mapLookup (ks.foldl bumpCount []) k).getD 0 = ks.count k := by
    intro k hk
    have hkks : k ∈ ks := by
      rcases (hmem k).mp hk with h | h
      · simp at h
      · exact h
    rw [mapLookup_countFold ks [] k, if_pos hkks]
    simp [mapLookup]
  have hcongr : ((ks.foldl bumpCount []).map Prod.fst).filter
        (fun k => (mapLookup (ks.foldl bumpCount []) k).getD 0 > 1) =
      ((ks.foldl bumpCount []).map Prod.fst).filter (fun k => 2 ≤ ks.count k) := by
    apply List.filter_congr
    intro k hk
    rw [hlookup k hk]
    simp only [gt_iff_lt]
    constructor
  have hperm : List.Perm ((ks.foldl bumpCount []).map Prod.fst) ks.dedup := by
    apply (List.perm_ext_iff_of_nodup hnd ks.nodup_dedup).mpr
    intro k
    rw [hmem k, List.mem_dedup]
    simp
  rw [hcongr]
  exact (hperm.filter (fun k => 2 ≤ ks.count k)).length_eq


/-! ## C5: participant lifecycle derivation -/

theorem rule1_any_iff (msgs : TeamMessages) (agent : String) :
    (((mapLookup msgs "team-lead").getD []).any
        (fun e => hasTypedType e.text "shutdown_approved" && e.«from» == agent)) = true ↔
      specShutdownApprovedFrom msgs agent := by
  unfold specShutdownApprovedFrom leadInboxEntries
  rw [List.any_eq_true]
  constructor
  · rintro ⟨e, he, hb⟩
    obtain ⟨h1, h2⟩ := Bool.and_eq_true_iff.mp hb
    exact ⟨e, he, h1, beq_iff_eq.mp h2⟩
  · rintro ⟨e, he, h1, h2⟩
    exact ⟨e, he, Bool.and_eq_true_iff.mpr ⟨h1, beq_iff_eq.mpr h2⟩⟩

theorem rule2_any_iff (msgs : TeamMessages) (agent : String) :
    (((mapLookup msgs agent).getD []).any
        (fun e => hasTypedType e.text "shutdown_request")) = true ↔
      specShutdownRequested msgs agent := by
  unfold specShutdownRequested
  rw [List.any_eq_true]

/-- The rule-3 scan equals a single fold over the flattened,
sender-filtered entry list. -/
theorem latestFromScan_eq_fold (msgs : TeamMessages) (agent : String) :
    latestFromScan msgs agent = (entriesFrom msgs agent).foldl stepLatest none := by
  unfold latestFromScan entriesFrom
  have hfilter : ∀ (es : List InboxEntry) (acc : Option (String × Bool)),
      (es.filter (fun e => e.«from» == agent)).foldl stepLatest acc =
        es.foldl (fun latest e => if e.«from» = agent then stepLatest latest e else latest) acc := by
    intro es
    induction es with
    | nil => intro acc; rfl
    | cons e es ih =>
      intro acc
      rw [List.filter_cons]
      by_cases h : e.«from» = agent
      · rw [if_pos (beq_iff_eq.mpr h), List.foldl_cons, List.foldl_cons, if_pos h, ih]
      · rw [if_neg (by simpa using h), List.foldl_cons, if_neg h, ih]
  rw [hfilter, List.foldl_flatten, List.foldl_map]
  have : (fun latest (p : String × List InboxEntry) =>
      p.2.foldl (fun latest e => if e.«from» = agent then stepLatest latest e else latest) latest) =
      (fun latest p =>
        p.2.foldl (fun latest e =>
          if e.«from» = agent then
            match latest with
            | none => some (e.timestamp, hasTypedType e.text "idle_notification")
            | some l =>
              if l.1 < e.timestamp then some (e.timestamp, hasTypedType e.text "idle_notification")
              else some l
          else latest) latest) := by
    funext latest p
    congr 1
  rw [this]

theorem stepLatest_none (e : InboxEntry) :
    stepLatest none e = some (e.timestamp, hasTypedType e.text "idle_notification") := rfl

theorem stepLatest_some (l : String × Bool) (e : InboxEntry) :
    stepLatest (some l) e =
      if l.1 < e.timestamp then some (e.timestamp, hasTypedType e.text "idle_notification")
      else some l := rfl

/-- Folding the scan from a seeded maximum: either nothing beats the seed
(and everything is strictly below it), or the strictly greatest entry of
the list wins. -/
theorem scan_top (es : List InboxEntry) :
    ∀ (ts0 : String) (b0 : Bool), (∀ e ∈ es, e.timestamp ≠ ts0) →
      es.Pairwise (fun a b => a.timestamp ≠ b.timestamp) →
      (es.foldl stepLatest (some (ts0, b0)) = some (ts0, b0) ∧ ∀ e ∈ es, e.timestamp < ts0) ∨
        (∃ e ∈ es, es.foldl stepLatest (some (ts0, b0)) =
            some (e.timestamp, hasTypedType e.text "idle_notification") ∧
          ts0 < e.timestamp ∧ ∀ e' ∈ es, e' ≠ e → e'.timestamp < e.timestamp) := by
  induction es with
  | nil =>
    intro ts0 b0 _ _
    exact Or.inl ⟨rfl, by simp⟩
  | cons e es ih =>
    intro ts0 b0 hne hdist
    rw [List.pairwise_cons] at hdist
    obtain ⟨hefirst, hdtail⟩ := hdist
    rw [List.foldl_cons]
    by_cases hlt : ts0 < e.timestamp
    · rw [stepLatest_some, if_pos hlt]
      rcases ih e.timestamp (hasTypedType e.text "idle_notification")
          (fun x hx => (hefirst x hx).symm) hdtail with ⟨hfold, hall⟩ | ⟨e₁, he₁, hfold, hgt, hmax⟩
      · refine Or.inr ⟨e, List.mem_cons_self e es, hfold, hlt, ?_⟩
        intro e' he' hne'
        rcases List.mem_cons.mp he' with rfl | he'
        · exact absurd rfl hne'
        · exact hall e' he'
      · refine Or.inr ⟨e₁, List.mem_cons_of_mem _ he₁, hfold, lt_trans hlt hgt, ?_⟩
        intro e' he' hne'
        rcases List.mem_cons.mp he' with rfl | he'
        · exact hgt
        · exact hmax e' he' hne'
    · have helt : e.timestamp < ts0 :=
        lt_of_le_of_ne (not_lt.mp hlt) (hne e (List.mem_cons_self e es))
      rw [stepLatest_some, if_neg hlt]
      rcases ih ts0 b0 (fun x hx => hne x (List.mem_cons_of_mem _ hx)) hdtail with
        ⟨hfold, hall⟩ | ⟨e₁, he₁, hfold, hgt, hmax⟩
      · refine Or.inl ⟨hfold, ?_⟩
        intro e' he'
        rcases List.mem_cons.mp he' with rfl | he'
        · exact helt
        · exact hall e' he'
      · refine Or.inr ⟨e₁, List.mem_cons_of_mem _ he₁, hfold, hgt, ?_⟩
        intro e' he' hne'
        rcases List.mem_cons.mp he' with rfl | he'
        · exact lt_trans helt hgt
        · exact hmax e' he' hne'

/-- On a non-empty pairwise-distinct-timestamp list, the scan returns the
strictly latest entry's timestamp and idle-ness. -/
theorem scan_characterization (es : List InboxEntry)
    (hdist : es.Pairwise (fun a b => a.timestamp ≠ b.timestamp)) (hne : es ≠ []) :
    ∃ e ∈ es, es.foldl stepLatest none =
        some (e.timestamp, hasTypedType e.text "idle_notification") ∧
      ∀ e' ∈ es, e' ≠ e → e'.timestamp < e.timestamp := by
  cases es with
  | nil => exact absurd rfl hne
  | cons e es =>
    rw [List.pairwise_cons] at hdist
    obtain ⟨hefirst, hdtail⟩ := hdist
    rw [List.foldl_cons]
    rw [stepLatest_none]
    rcases scan_top es e.timestamp (hasTypedType e.text "idle_notification")
        (fun x hx => (hefirst x hx).symm) hdtail with ⟨hfold, hall⟩ | ⟨e₁, he₁, hfold, hgt, hmax⟩
    · refine ⟨e, List.mem_cons_self e es, hfold, ?_⟩
      intro e' he' hne'
      rcases List.mem_cons.mp he' with rfl | he'
      · exact absurd rfl hne'
      · exact hall e' he'
    · refine ⟨e₁, List.mem_cons_of_mem _ he₁, hfold, ?_⟩
      intro e' he' hne'
      rcases List.mem_cons.mp he' with rfl | he'
      · exact hgt
      · exact hmax e' he' hne'

/-- The rule-3 match condition holds exactly when the spec's "most recent
message from the agent is an idle notice" holds, for distinct
timestamps. -/
theorem rule3_iff (msgs : TeamMessages) (agent : String)
    (hdist : (entriesFrom msgs agent).Pairwise (fun a b => a.timestamp ≠ b.timestamp)) :
    (∃ ts, latestFromScan msgs agent = some (ts, true)) ↔ specLatestIsIdle msgs agent := by
  rw [latestFromScan_eq_fold]
  unfold specLatestIsIdle
  constructor
  · rintro ⟨ts, hts⟩
    have hne : entriesFrom msgs agent ≠ [] := by
      intro h0
      rw [h0] at hts
      simp at hts
    obtain ⟨e, he, hfold, hmax⟩ := scan_characterization _ hdist hne
    rw [hfold] at hts
    injection hts with hts
    have hidle : hasTypedType e.text "idle_notification" = true := congrArg Prod.snd hts
    refine ⟨e, he, hidle, ?_⟩
    intro e' he'
    by_cases heq : e' = e
    · rw [heq]
    · exact le_of_lt (hmax e' he' heq)
  · rintro ⟨e₂, he₂, hidle, hle⟩
    have hne : entriesFrom msgs agent ≠ [] := fun h0 => by rw [h0] at he₂; exact absurd he₂ (List.not_mem_nil e₂)
    obtain ⟨e, he, hfold, hmax⟩ := scan_characterization _ hdist hne
    have : e₂ = e := by
      by_contra hne₂
      exact absurd (hle e he) (not_le.mpr (hmax e₂ he₂ hne₂))
    subst this
    exact ⟨e₂.timestamp, by rw [hfold, hidle]⟩


/-- Folding member lifecycle writes never touches a key no member has. -/
theorem states_fold_untouched (msgs : TeamMessages) (ms : List TeamMember) :
    ∀ (acc : List (String × Lifecycle)) (k : String), (∀ m ∈ ms, m.name ≠ k) →
      mapLookup (ms.foldl (fun result member =>
        if isTeamLead member then mapSet result member.name Lifecycle.active
        else mapSet result member.name (getAgentLifecycleState msgs member.name)) acc) k =
        mapLookup acc k := by
  induction ms with
  | nil =>
    intro acc k _
    rfl
  | cons m₀ ms ih =>
    intro acc k hk
    rw [List.foldl_cons, ih _ k (fun m hm => hk m (List.mem_cons_of_mem _ hm))]
    by_cases hl : isTeamLead m₀
    · rw [if_pos hl, mapLookup_mapSet_ne _ _ _ _ (hk m₀ (List.mem_cons_self m₀ ms))]
    · rw [if_neg hl, mapLookup_mapSet_ne _ _ _ _ (hk m₀ (List.mem_cons_self m₀ ms))]

/-- With no duplicate member names, the lifecycle-states fold maps each
member to its own lifecycle (the lead pinned to `active`). -/
theorem states_fold_lookup (msgs : TeamMessages) (ms : List TeamMember) :
    ∀ (acc : List (String × Lifecycle)), (ms.map (fun x => x.name)).Nodup →
      ∀ m ∈ ms,
        mapLookup (ms.foldl (fun result member =>
          if isTeamLead member then mapSet result member.name Lifecycle.active
          else mapSet result member.name (getAgentLifecycleState msgs member.name)) acc) m.name =
          some (if isTeamLead m then Lifecycle.active
            else getAgentLifecycleState msgs m.name) := by
  induction ms with
  | nil =>
    intro acc _ m hm
    exact absurd hm (List.not_mem_nil m)
  | cons m₀ ms ih =>
    intro acc hnd m hm
    rw [List.map_cons, List.nodup_cons] at hnd
    obtain ⟨hm₀, hndtl⟩ := hnd
    rcases List.mem_cons.mp hm with rfl | hm
    · rw [List.foldl_cons]
      have hother : ∀ m' ∈ ms, m'.name ≠ m.name :=
        fun m' hm' heq => hm₀ (heq ▸ List.mem_map_of_mem (fun x => x.name) hm')
      by_cases hl : isTeamLead m
      · rw [if_pos hl,
          states_fold_untouched msgs ms (mapSet acc m.name Lifecycle.active) m.name hother,
          mapLookup_mapSet_self, if_pos hl]
      · rw [if_neg hl,
          states_fold_untouched msgs ms
            (mapSet acc m.name (getAgentLifecycleState msgs m.name)) m.name hother,
          mapLookup_mapSet_self, if_neg hl]
    · rw [List.foldl_cons]
      exact ih _ hndtl m hm

/-- C5: for distinct message timestamps (what "the most recent message"
presupposes), `getAgentLifecycleState` equals the claim's strict priority
cascade — `shutdown` on a shutdown-approval in the leader's inbox, else
`shutting_down` on a shutdown-request in the participant's own inbox, else
`idle` when the participant's latest message anywhere is an idle notice,
else `active`; and `getAgentLifecycleStates` maps the leader to `active`
and every other member to its derived lifecycle. -/
theorem claim5_lifecycle_priority (msgs : TeamMessages) (agent : String) :
    ((entriesFrom msgs agent).Pairwise (fun a b => a.timestamp ≠ b.timestamp) →
      getAgentLifecycleState msgs agent = specLifecycle msgs agent) ∧
      ∀ (team : TeamConfig) (m : TeamMember),
        (team.members.map (fun x => x.name)).Nodup → m ∈ team.members →
        mapLookup (getAgentLifecycleStates team msgs) m.name =
          some (if isTeamLead m then Lifecycle.active
            else getAgentLifecycleState msgs m.name) := by
  constructor
  · intro hdist
    unfold getAgentLifecycleState specLifecycle
    by_cases h1 : specShutdownApprovedFrom msgs agent
    · rw [if_pos ((rule1_any_iff msgs agent).mpr h1), if_pos h1]
    · rw [if_neg (fun hb => h1 ((rule1_any_iff msgs agent).mp hb)), if_neg h1]
      by_cases h2 : specShutdownRequested msgs agent
      · rw [if_pos ((rule2_any_iff msgs agent).mpr h2), if_pos h2]
      · rw [if_neg (fun hb => h2 ((rule2_any_iff msgs agent).mp hb)), if_neg h2]
        by_cases h3 : specLatestIsIdle msgs agent
        · obtain ⟨ts, hts⟩ := (rule3_iff msgs agent hdist).mpr h3
          rw [hts, if_pos h3]
        · rw [if_neg h3]
          cases hscan : latestFromScan msgs agent with
          | none => rfl
          | some l =>
            obtain ⟨ts, b⟩ := l
            cases b with
            | true => exact absurd ((rule3_iff msgs agent hdist).mp ⟨ts, hscan⟩) h3
            | false => rfl
  · intro team m hnd hm
    unfold getAgentLifecycleStates
    exact states_fold_lookup msgs team.members [] hnd m hm

/-- C5 witness: with the only message from `w1` being an idle notice in
the leader's inbox, both parts of the claim hold on the example team. -/
theorem claim5_witness :
    getAgentLifecycleState msgsIdleEx "w1" = specLifecycle msgsIdleEx "w1" ∧
      mapLookup (getAgentLifecycleStates cfgWithW1Ex msgsIdleEx) "w1" =
        some (if isTeamLead w1MemberEx then Lifecycle.active
          else getAgentLifecycleState msgsIdleEx "w1") := by
  constructor
  · exact (claim5_lifecycle_priority msgsIdleEx "w1").1 (by decide)
  · exact (claim5_lifecycle_priority msgsIdleEx "w1").2 cfgWithW1Ex w1MemberEx
      (by decide) (by decide)


/-! ## C1: merge monotonicity of descriptor upserts -/

theorem overrideOpt_none_right {α : Type} (x : Option α) : overrideOpt x none = x := by
  cases x <;> rfl

theorem overrideOpt_assoc {α : Type} (x y z : Option α) :
    overrideOpt x (overrideOpt y z) = overrideOpt (overrideOpt x y) z := by
  cases x <;> cases y <;> rfl

theorem getLast?_cons_override {α : Type} (a : α) (l : List α) :
    (a :: l).getLast? = overrideOpt l.getLast? (some a) := by
  cases l with
  | nil => rfl
  | cons b l' =>
    rw [List.getLast?_cons_cons]
    cases hl : (b :: l').getLast? with
    | none => simp at hl
    | some c => rfl

theorem lastMemberNamed_cons (p : String) (m : TeamMember) (ms : List TeamMember) :
    lastMemberNamed p (m :: ms) =
      overrideOpt (lastMemberNamed p ms) (if m.name = p then some m else none) := by
  unfold lastMemberNamed
  rw [List.filter_cons]
  by_cases h : m.name = p
  · rw [if_pos (beq_iff_eq.mpr h), if_pos h, getLast?_cons_override]
  · rw [if_neg (by simpa using h), if_neg h, overrideOpt_none_right]

theorem lookup_memberFold (ms : List TeamMember) :
    ∀ (acc0 : List (String × TeamMember)) (p : String),
      mapLookup (ms.foldl (fun acc m => mapSet acc m.name m) acc0) p =
        overrideOpt (lastMemberNamed p ms) (mapLookup acc0 p) := by
  induction ms with
  | nil =>
    intro acc0 p
    rw [show lastMemberNamed p [] = none from rfl]
    rfl
  | cons m ms ih =>
    intro acc0 p
    rw [List.foldl_cons, ih, lastMemberNamed_cons, ← overrideOpt_assoc]
    congr 1
    by_cases h : m.name = p
    · rw [if_pos h, show overrideOpt (some m) (mapLookup acc0 p) = some m from rfl, ← h,
        mapLookup_mapSet_self]
    · rw [if_neg h, show overrideOpt none (mapLookup acc0 p) = mapLookup acc0 p from rfl,
        mapLookup_mapSet_ne acc0 m.name p m h]

theorem mapSet_cons_eq {α : Type} (k₀ : String) (v₀ : α) (tl : List (String × α)) (k : String)
    (v : α) (h : k₀ = k) : mapSet ((k₀, v₀) :: tl) k v = (k, v) :: tl := by
  simp only [mapSet]
  rw [if_pos h]

theorem mapSet_cons_ne {α : Type} (k₀ : String) (v₀ : α) (tl : List (String × α)) (k : String)
    (v : α) (h : ¬k₀ = k) : mapSet ((k₀, v₀) :: tl) k v = (k₀, v₀) :: mapSet tl k v := by
  simp only [mapSet]
  rw [if_neg h]

theorem mapLookup_cons {α : Type} (k₀ : String) (v₀ : α) (tl : List (String × α)) (k : String) :
    mapLookup ((k₀, v₀) :: tl) k = if k₀ = k then some v₀ else mapLookup tl k := rfl

theorem mem_mapSet {α : Type} (l : List (String × α)) (k : String) (v : α) :
    ∀ q ∈ mapSet l k v, q = (k, v) ∨ q ∈ l := by
  induction l with
  | nil =>
    intro q hq
    rw [show mapSet [] k v = [(k, v)] from rfl] at hq
    exact Or.inl (List.mem_singleton.mp hq)
  | cons hd tl ih =>
    intro q hq
    obtain ⟨k₀, v₀⟩ := hd
    by_cases h : k₀ = k
    · subst h
      rw [mapSet_cons_eq k₀ v₀ tl k₀ v rfl] at hq
      rcases List.mem_cons.mp hq with rfl | hq
      · exact Or.inl rfl
      · exact Or.inr (List.mem_cons_of_mem _ hq)
    · rw [mapSet_cons_ne k₀ v₀ tl k v h] at hq
      rcases List.mem_cons.mp hq with rfl | hq
      · exact Or.inr (List.mem_cons_self _ tl)
      · rcases ih q hq with h' | h'
        · exact Or.inl h'
        · exact Or.inr (List.mem_cons_of_mem _ h')

theorem mapSet_wf {α : Type} (l : List (String × α)) (k : String) (v : α)
    (hnd : (l.map Prod.fst).Nodup) : ((mapSet l k v).map Prod.fst).Nodup := by
  rw [keys_mapSet]
  split
  · exact hnd
  · exact nodup_append_single _ _ hnd (by assumption)

theorem memberFold_wf (ms : List TeamMember) :
    ∀ (acc : List (String × TeamMember)), (acc.map Prod.fst).Nodup →
      (∀ q ∈ acc, (q.2 : TeamMember).name = q.1) →
      (((ms.foldl (fun acc m => mapSet acc m.name m) acc).map Prod.fst).Nodup ∧
        ∀ q ∈ ms.foldl (fun acc m => mapSet acc m.name m) acc, (q.2 : TeamMember).name = q.1) := by
  induction ms with
  | nil =>
    intro acc h1 h2
    exact ⟨h1, h2⟩
  | cons m ms ih =>
    intro acc h1 h2
    rw [List.foldl_cons]
    apply ih
    · exact mapSet_wf acc m.name m h1
    · intro q hq
      rcases mem_mapSet acc m.name m q hq with rfl | hq
      · rfl
      · exact h2 q hq

theorem notmem_lookup_none {α : Type} (l : List (String × α)) (k : String)
    (h : k ∉ l.map Prod.fst) : mapLookup l k = none := by
  induction l with
  | nil => rfl
  | cons hd tl ih =>
    obtain ⟨k₀, v₀⟩ := hd
    rw [List.map_cons, List.mem_cons] at h
    push_neg at h
    unfold mapLookup
    rw [if_neg (fun he => h.1 he.symm)]
    exact ih h.2

theorem values_lastNamed (l : List (String × TeamMember)) (p : String)
    (hnd : (l.map Prod.fst).Nodup) (hsnd : ∀ q ∈ l, (q.2 : TeamMember).name = q.1) :
    lastMemberNamed p (l.map (fun q => q.2)) = mapLookup l p := by
  induction l with
  | nil => rfl
  | cons hd tl ih =>
    obtain ⟨k, v⟩ := hd
    rw [List.map_cons, List.nodup_cons] at hnd
    have hvk : v.name = k := hsnd (k, v) (List.mem_cons_self _ tl)
    rw [List.map_cons, lastMemberNamed_cons,
      ih hnd.2 (fun q hq => hsnd q (List.mem_cons_of_mem _ hq)), mapLookup_cons]
    by_cases h : k = p
    · rw [if_pos h, if_pos (hvk.trans h), notmem_lookup_none tl p (h ▸ hnd.1)]
      rfl
    · rw [if_neg h, if_neg (fun hc => h (hvk.symm.trans hc)), overrideOpt_none_right]

theorem merge_lastNamed (old new : List TeamMember) (p : String) :
    lastMemberNamed p (mergeMembers old new) =
      overrideOpt (lastMemberNamed p new) (lastMemberNamed p old) := by
  unfold mergeMembers
  have hwf := memberFold_wf old [] (by simp) (by simp)
  have hwf2 := memberFold_wf new (memberMap old) hwf.1 hwf.2
  rw [values_lastNamed _ p hwf2.1 hwf2.2, lookup_memberFold]
  unfold memberMap
  rw [lookup_memberFold]
  rw [show mapLookup ([] : List (String × TeamMember)) p = none from rfl, overrideOpt_none_right]

theorem memberRead_updateTeam_same (teams : List (String × TeamConfig)) (s p : String)
    (c : TeamConfig) :
    memberRead (updateTeam teams s c) s p =
      overrideOpt (lastMemberNamed p c.members) (memberRead teams s p) := by
  unfold updateTeam memberRead
  cases h : mapLookup teams s with
  | none =>
    rw [mapLookup_mapSet_self, overrideOpt_none_right]
  | some existing =>
    rw [mapLookup_mapSet_self]
    exact merge_lastNamed existing.members c.members p

theorem memberRead_updateTeam_other (teams : List (String × TeamConfig)) (s s' p : String)
    (c : TeamConfig) (h : s ≠ s') :
    memberRead (updateTeam teams s c) s' p = memberRead teams s' p := by
  unfold updateTeam memberRead
  cases hl : mapLookup teams s with
  | none => rw [mapLookup_mapSet_ne teams s s' _ h]
  | some existing => rw [mapLookup_mapSet_ne teams s s' _ h]

theorem lastWrite_fold_override (p : String) (cfgs : List TeamConfig) :
    ∀ (acc : Option TeamMember),
      cfgs.foldl (fun a c => overrideOpt (lastMemberNamed p c.members) a) acc =
        overrideOpt (lastWrite p cfgs) acc := by
  induction cfgs with
  | nil =>
    intro acc
    rfl
  | cons c cfgs ih =>
    intro acc
    rw [List.foldl_cons, ih, show lastWrite p (c :: cfgs) =
      cfgs.foldl (fun a c => overrideOpt (lastMemberNamed p c.members) a)
        (overrideOpt (lastMemberNamed p c.members) none) from rfl, ih,
      overrideOpt_none_right, ← overrideOpt_assoc]

theorem memberRead_applyUpserts (ops : List (String × TeamConfig)) :
    ∀ (teams : List (String × TeamConfig)) (s p : String),
      memberRead (applyUpserts ops teams) s p =
        overrideOpt (lastWrite p (configsFor s ops)) (memberRead teams s p) := by
  induction ops with
  | nil =>
    intro teams s p
    rw [show configsFor s [] = [] from rfl, show lastWrite p [] = none from rfl]
    rfl
  | cons op ops ih =>
    intro teams s p
    obtain ⟨s₀, c⟩ := op
    rw [show applyUpserts ((s₀, c) :: ops) teams = applyUpserts ops (updateTeam teams s₀ c)
      from rfl, ih]
    unfold configsFor
    rw [List.filter_cons]
    by_cases h : s₀ = s
    · subst h
      rw [if_pos (by simp), List.map_cons]
      rw [show lastWrite p (c :: (List.map (fun op => op.2)
          (List.filter (fun op => op.1 == s₀) ops))) =
        (List.map (fun op => op.2) (List.filter (fun op => op.1 == s₀) ops)).foldl
          (fun a c' => overrideOpt (lastMemberNamed p c'.members) a)
          (overrideOpt (lastMemberNamed p c.members) none) from rfl]
      rw [lastWrite_fold_override, overrideOpt_none_right, ← overrideOpt_assoc]
      rw [memberRead_updateTeam_same]
    · rw [if_neg (by simpa using h), memberRead_updateTeam_other teams s₀ s p c h]

theorem lastWrite_isSome_of_appears (p : String) (cfgs : List TeamConfig)
    (h : ∃ c ∈ cfgs, ∃ m ∈ c.members, m.name = p) :
    ∃ m', lastWrite p cfgs = some m' := by
  induction cfgs with
  | nil =>
    obtain ⟨c, hc, -⟩ := h
    exact absurd hc (List.not_mem_nil c)
  | cons c cfgs ih =>
    rw [show lastWrite p (c :: cfgs) =
      cfgs.foldl (fun a c' => overrideOpt (lastMemberNamed p c'.members) a)
        (overrideOpt (lastMemberNamed p c.members) none) from rfl,
      lastWrite_fold_override, overrideOpt_none_right]
    obtain ⟨c', hc', m, hm, hname⟩ := h
    rcases List.mem_cons.mp hc' with rfl | hc'
    · cases hlw : lastWrite p cfgs with
      | some m' => exact ⟨m', rfl⟩
      | none =>
        have : ∃ m', lastMemberNamed p c'.members = some m' := by
          have hmem : m ∈ c'.members.filter (fun x => x.name == p) :=
            List.mem_filter.mpr ⟨hm, beq_iff_eq.mpr hname⟩
          cases hlast : (c'.members.filter (fun x => x.name == p)).getLast? with
          | some m' => exact ⟨m', hlast⟩
          | none =>
            rw [List.getLast?_eq_none_iff] at hlast
            rw [hlast] at hmem
            exact absurd hmem (List.not_mem_nil m)
        obtain ⟨m', hm'⟩ := this
        exact ⟨m', by rw [hm']; rfl⟩
    · obtain ⟨m', hm'⟩ := ih ⟨c', hc', m, hm, hname⟩
      rw [hm']
      exact ⟨m', rfl⟩

theorem lastMemberNamed_mem (p : String) (ms : List TeamMember) (m : TeamMember)
    (h : lastMemberNamed p ms = some m) : m ∈ ms ∧ m.name = p := by
  unfold lastMemberNamed at h
  have hmem : m ∈ ms.filter (fun x => x.name == p) := List.mem_of_getLast?_eq_some h
  obtain ⟨h1, h2⟩ := List.mem_filter.mp hmem
  exact ⟨h1, beq_iff_eq.mp h2⟩

/-- C1: starting from an empty store, after any sequence of descriptor
upserts, every participant name that ever appeared in an upserted
descriptor for a session is still present in that session's stored member
list, carrying the attributes of the last descriptor write that listed
it. -/
theorem claim1_merge_monotonicity (ops : List (String × TeamConfig)) (s p : String)
    (happ : ∃ c ∈ configsFor s ops, ∃ m ∈ c.members, m.name = p) :
    ∃ cfg, mapLookup (applyUpserts ops []) s = some cfg ∧
      ∃ m ∈ cfg.members, m.name = p ∧ lastWrite p (configsFor s ops) = some m := by
  obtain ⟨m', hm'⟩ := lastWrite_isSome_of_appears p (configsFor s ops) happ
  have hread := memberRead_applyUpserts ops [] s p
  rw [show memberRead ([] : List (String × TeamConfig)) s p = none from rfl,
    overrideOpt_none_right, hm'] at hread
  unfold memberRead at hread
  cases hcfg : mapLookup (applyUpserts ops []) s with
  | none => rw [hcfg] at hread; exact absurd hread (by simp)
  | some cfg =>
    rw [hcfg] at hread
    obtain ⟨hmem, hname⟩ := lastMemberNamed_mem p cfg.members m' hread
    exact ⟨cfg, rfl, m', hmem, hname, hm'⟩

/-- C1 witness: `w1` appears in the first descriptor write and is omitted
by the second; it is still read back with its first-write attributes. -/
theorem claim1_witness :
    ∃ cfg, mapLookup (applyUpserts opsEx []) "sess" = some cfg ∧
      ∃ m ∈ cfg.members, m.name = "w1" ∧
        lastWrite "w1" (configsFor "sess" opsEx) = some m :=
  claim1_merge_monotonicity opsEx "sess" "w1"
    ⟨cfgWithW1Ex, by decide, w1MemberEx, by decide, rfl⟩

end ATM
